import Mathlib

/-!
Verification development for the prisoner-dilemma wagering smart contract
(`src/contract/src/lib.rs`).  The contract's data model and operations are
shallowly embedded below: machine integers (`u64`, `i64`, `u32`, `u8`) are
modelled as `ℕ`/`ℤ` with explicit wraparound where the source's release-mode
arithmetic wraps, and the two `f64` percentage computations are modelled
exactly, as round-to-nearest-even binary64 arithmetic over `ℚ`.
-/

/-! ## Machine-integer helpers -/

/-- `u64` arithmetic wraps modulo `2^64` (release-mode Rust semantics). -/
def wrap64 (n : ℕ) : ℕ := n % 2^64

/-- Reduce an integer into the `i64` value range `[-2^63, 2^63)`
(two's-complement wraparound). -/
def i64wrap (z : ℤ) : ℤ := (z + 2^63) % 2^64 - 2^63

/-- The Rust cast `x as i64` for a `u64` value `x`: two's-complement
reinterpretation (well-defined in all build modes). -/
def toI64 (n : ℕ) : ℤ := i64wrap n

/-- `i64` addition with wraparound. -/
def addI64 (a b : ℤ) : ℤ := i64wrap (a + b)

/-- `i64` negation with wraparound (negating `i64::MIN` yields `i64::MIN`). -/
def negI64 (a : ℤ) : ℤ := i64wrap (-a)

/-! ## Exact model of the `f64` computations

The source computes pot percentages as `(0.01 * pot as f64) as u64` and
`(0.015 * pot as f64) as u64`.  We model binary64 arithmetic exactly over
`ℚ`: a positive rational is rounded to 53 significand bits with
round-to-nearest, ties-to-even.  All values arising here are far inside the
normal exponent range, so overflow/underflow/subnormals never come into play. -/

/-- Fuel-indexed base-2 logarithm (structural recursion so that the kernel
can evaluate it). -/
def log2F : ℕ → ℕ → ℕ
  | 0, _ => 0
  | fuel+1, n => if n ≤ 1 then 0 else log2F fuel (n / 2) + 1

/-- Floor base-2 logarithm: for `1 ≤ n`, `2^(nlog2 n) ≤ n < 2^(nlog2 n + 1)`. -/
def nlog2 (n : ℕ) : ℕ := log2F n n

/-- Round a rational to the nearest integer, ties to even. -/
def rne (q : ℚ) : ℤ :=
  if q - ⌊q⌋ < 1/2 then ⌊q⌋
  else if (1/2 : ℚ) < q - ⌊q⌋ then ⌊q⌋ + 1
  else if ⌊q⌋ % 2 = 0 then ⌊q⌋ else ⌊q⌋ + 1

/-- The binade exponent of a positive rational `q`: the unique `k` with
`2^k ≤ q < 2^(k+1)`. -/
def findExp (q : ℚ) : ℤ :=
  let k : ℤ := (nlog2 q.num.toNat : ℤ) - (nlog2 q.den : ℤ)
  if (2:ℚ)^k ≤ q then k else k - 1

/-- Round a nonnegative rational to the nearest binary64 value
(round-to-nearest, ties-to-even, 53 significand bits). -/
def flRat (q : ℚ) : ℚ :=
  if q ≤ 0 then 0
  else (rne (q / (2:ℚ)^(findExp q - 52)) : ℚ) * (2:ℚ)^(findExp q - 52)

/-- The Rust cast `n as f64` for a `u64` value (round to nearest). -/
def f64ofU64 (n : ℕ) : ℚ := flRat (n : ℚ)

/-- `f64` multiplication: exact product, rounded. -/
def f64mul (a b : ℚ) : ℚ := flRat (a * b)

/-- The Rust cast `x as f64 as u64`: truncation toward zero, saturating
(our values are nonnegative, so this is a floor capped at `u64::MAX`). -/
def f64toU64 (q : ℚ) : ℕ := if q ≤ 0 then 0 else min ⌊q⌋.toNat (2^64 - 1)

/-- The binary64 value of the source literal `0.01`. -/
def lit001 : ℚ := flRat (1/100)

/-- The binary64 value of the source literal `0.015`. -/
def lit0015 : ℚ := flRat (15/1000)

/-- The source expression `(0.01 * pot as f64) as u64`. -/
def potDividend01 (pot : ℕ) : ℕ := f64toU64 (f64mul lit001 (f64ofU64 pot))

/-- The source expression `(0.015 * pot as f64) as u64`. -/
def potDividend015 (pot : ℕ) : ℕ := f64toU64 (f64mul lit0015 (f64ofU64 pot))

/-! ## Contract data model (from `src/contract/src/lib.rs`) -/

/-- A participant in one play request (`struct Player`).  `[u8; 32]`
identities are modelled as lists of naturals. -/
structure Player where
  sender : List ℕ
  tx_id : List ℕ
  stake : ℕ
  vote : ℕ
  deriving DecidableEq, Inhabited

/-- A match (`struct Match`): `p1_payout`/`p2_payout` are the `u64` amounts
credited to the players' balances; `pot_payout` is the signed `i64` amount
added to the pot. -/
structure Match where
  id : String
  p1 : Player
  p2 : Option Player
  p1_payout : ℕ
  p2_payout : ℕ
  pot_payout : ℤ
  deriving DecidableEq, Inhabited

/-- `Match::new`: a fresh waiting match holding only player one. -/
def Match.new (id : String) (player : Player) : Match :=
  { id := id, p1 := player, p2 := none, p1_payout := 0, p2_payout := 0, pot_payout := 0 }

/-- `Match::play` (lines 96-139): compute both payouts and the pot delta from
the vote pair, then attach player two.  Vote 1 is cooperate, 2 is defect. -/
def Match.play (m : Match) (p2 : Player) (pot : ℕ) : Match :=
  if m.p1.vote = 2 ∧ p2.vote = 2 then
    { m with
      p1_payout := 0
      p2_payout := 0
      pot_payout := toI64 (wrap64 (m.p1.stake + p2.stake))
      p2 := some p2 }
  else if m.p1.vote = 1 ∧ p2.vote = 1 then
    let p1_pot_payout := potDividend01 pot
    let p2_pot_payout := potDividend01 pot
    { m with
      p1_payout := wrap64 (m.p1.stake + p1_pot_payout)
      p2_payout := wrap64 (p2.stake + p2_pot_payout)
      pot_payout := negI64 (toI64 (wrap64 (p1_pot_payout + p2_pot_payout)))
      p2 := some p2 }
  else if m.p1.vote = 1 ∧ p2.vote = 2 then
    let p2_pot_payout := potDividend015 pot
    { m with
      p1_payout := 0
      p2_payout := wrap64 (wrap64 (p2.stake + m.p1.stake) + p2_pot_payout)
      pot_payout := negI64 (toI64 p2_pot_payout)
      p2 := some p2 }
  else if m.p1.vote = 2 ∧ p2.vote = 1 then
    let p1_pot_payout := potDividend015 pot
    { m with
      p1_payout := wrap64 (wrap64 (p2.stake + m.p1.stake) + p1_pot_payout)
      p2_payout := 0
      pot_payout := negI64 (toI64 p1_pot_payout)
      p2 := some p2 }
  else { m with p2 := some p2 }

/-- The contract state (`struct PrisonerDilemma`).  The balances `HashMap`
is modelled as a total function defaulting to 0, matching the source's
get-or-zero reads. -/
structure PrisonerDilemma where
  balances : List ℕ → ℕ
  pot : ℕ
  threshold : ℕ
  waiting : List Match
  history : List Match

/-- `MAX_HISTORY_CAPACITY`. -/
def MAX_HISTORY_CAPACITY : ℕ := 100

/-- `update_balance` (lines 44-58): read the current balance (0 if absent),
add the signed amount with `i64` arithmetic, clamp a negative result to 0,
store back as `u64`. -/
def update_balance (balances : List ℕ → ℕ) (sender : List ℕ) (amount : ℤ) : List ℕ → ℕ :=
  let recipient_balance := balances sender
  let updated := addI64 (toI64 recipient_balance) amount
  let updated := if updated < 0 then 0 else updated
  fun k => if k = sender then updated.toNat else balances k

/-- `prune_old_history` (lines 38-42): drop the entry at index 0 once the
history exceeds the capacity. -/
def prune_old_history (p : PrisonerDilemma) : PrisonerDilemma :=
  if p.history.length > MAX_HISTORY_CAPACITY then
    { p with history := p.history.eraseIdx 0 }
  else p

/-- The host-supplied per-call parameters used by the contract. -/
structure Params where
  sender : List ℕ
  transaction_id : List ℕ
  round_id : List ℕ
  amount : ℕ
  vote : ℕ

/-- The element-wise sums of the two identifier byte arrays, with 8-bit
wraparound per position (`a + b` on `u8` in release mode). -/
def seedSums (r t : List ℕ) : List ℕ :=
  (r.zip t).map fun ab => (ab.1 + ab.2) % 256

/-- The 16-byte seed of `random` (lines 27-36): a zero-filled array whose
first `min 16 (min |r| |t|)` positions receive the wrapping byte sums. -/
def mkSeed (r t : List ℕ) : List ℕ :=
  (List.range 16).map fun i => (seedSums r t).getD i 0

/-- Modelled from the spec: the seeded draw `SmallRng::from_seed(seed)` /
`gen_range(0, 100)` comes from the external `rand` crate, which the spec
describes only as a deterministic pseudorandom generator producing one value
uniformly in `[0, 100)`.  We model it as a fixed deterministic function of
the 16-byte seed with values below 100. -/
def prgDraw (seed : List ℕ) : ℕ := (seed.foldl (· + ·) 0) % 100

/-- `random(params)`: derive the seed from the round and transaction
identifiers and draw one value in `[0, 100)`. -/
def random (params : Params) : ℕ := prgDraw (mkSeed params.round_id params.transaction_id)

/-- The whole system state: the contract plus the process-wide id counter
(`static mut COUNTER`). -/
structure SysState where
  contract : PrisonerDilemma
  counter : ℕ

/-- `generate_id` (lines 15-20): increment the `u32` counter and render it
in decimal. -/
def generate_id (counter : ℕ) : ℕ × String :=
  ((counter + 1) % 2^32, toString ((counter + 1) % 2^32))

/-- Outcome of a `play` call, as logged by the source. -/
inductive PlayOut where
  | invalidVote
  | parked (match_id : String)
  | matched (match_id : String) (p1_sender : List ℕ) (p1_payout : ℕ)
            (p2_sender : List ℕ) (p2_payout : ℕ)
  deriving DecidableEq

/-- First index whose element satisfies the predicate
(`Iterator::position`). -/
def firstIdxWith (p : α → Bool) : List α → Option ℕ
  | [] => none
  | a :: l => if p a then some 0 else (firstIdxWith p l).map (· + 1)

/-- The parking path of `play`: create a new match for the player, append it
to the waiting pool, return its id.  `t'` is the already-updated threshold. -/
def parkPlayer (s : SysState) (p : Player) (t' : ℕ) : PlayOut × SysState :=
  let (c', id) := generate_id s.counter
  (.parked id,
   ⟨{ s.contract with
      threshold := t'
      waiting := s.contract.waiting ++ [Match.new id p] }, c'⟩)

/-- The pairing path of `play` (lines 219-262): play the waiting match at
`index` against `p`, credit both payouts, apply the pot delta (clamped at 0),
record the completed match in the history, remove it from the waiting pool,
prune the history.  The unwraps of the source are modelled by `getD`. -/
def pairWith (s : SysState) (p : Player) (t' : ℕ) (index : ℕ) : PlayOut × SysState :=
  let m := Match.play (s.contract.waiting.getD index default) p s.contract.pot
  let p2 := m.p2.getD default
  let balances1 := update_balance s.contract.balances p2.sender (toI64 m.p2_payout)
  let balances2 := update_balance balances1 m.p1.sender (toI64 m.p1_payout)
  let new_pot := addI64 (toI64 s.contract.pot) m.pot_payout
  let new_pot := if new_pot < 0 then 0 else new_pot
  let afterPush : PrisonerDilemma :=
    { balances := balances2
      pot := new_pot.toNat
      threshold := t'
      history := s.contract.history ++ [m]
      waiting := s.contract.waiting.eraseIdx index }
  (.matched m.id m.p1.sender m.p1_payout p2.sender m.p2_payout,
   ⟨prune_old_history afterPush, s.counter⟩)

/-- `PrisonerDilemma::play` (lines 162-263).  Reject votes other than 1/2;
run the admission test (`random > threshold` parks the player and raises the
threshold, otherwise the threshold drops by 1 floored at 0); then pair with
the first waiting match owned by a different sender, or park if none exists. -/
def PrisonerDilemma.play (s : SysState) (params : Params) : PlayOut × SysState :=
  if params.vote ≠ 1 ∧ params.vote ≠ 2 then (.invalidVote, s)
  else
    let p : Player :=
      { sender := params.sender
        tx_id := params.transaction_id
        stake := params.amount
        vote := params.vote }
    if random params > s.contract.threshold then
      parkPlayer s p ((s.contract.threshold + 1) % 2^32)
    else
      let t' := if s.contract.threshold > 0 then s.contract.threshold - 1
                else s.contract.threshold
      match firstIdxWith (fun m => decide (m.p1.sender ≠ params.sender))
              s.contract.waiting with
      | none => parkPlayer s p t'
      | some index => pairWith s p t' index

/-- Outcome of a `result` call. -/
inductive ResOut where
  | stillWaiting
  | notFound
  | completed (p1_sender : List ℕ) (p1_payout : ℕ) (p2 : Option Player) (p2_payout : ℕ)
  deriving DecidableEq

/-- `PrisonerDilemma::result` (lines 265-295): waiting pool first, then the
history, else not found.  The source takes `&mut self` but performs no
writes; the returned state is unchanged. -/
def PrisonerDilemma.result (c : PrisonerDilemma) (id : String) : ResOut × PrisonerDilemma :=
  if (c.waiting.find? fun m => decide (m.id = id)).isSome then (.stillWaiting, c)
  else
    match c.history.find? fun m => decide (m.id = id) with
    | some found => (.completed found.p1.sender found.p1_payout found.p2 found.p2_payout, c)
    | none => (.notFound, c)

/-- Externally visible effects of `cash_out`, in program order. -/
inductive CashEvent where
  | transferReq (destination : List ℕ) (amount : ℕ)
  | balanceZeroed (who : List ℕ)
  deriving DecidableEq

/-- Result tag of a `cash_out` call. -/
inductive CashOutcome where
  | zeroBalance
  | ok
  deriving DecidableEq

/-- `PrisonerDilemma::cash_out` (lines 308-327): error on a zero (or absent)
balance; otherwise request a transfer of the full balance to the sender and
then zero the stored balance. -/
def PrisonerDilemma.cash_out (c : PrisonerDilemma) (sender : List ℕ) :
    CashOutcome × List CashEvent × PrisonerDilemma :=
  let sender_balance := c.balances sender
  if sender_balance = 0 then (.zeroBalance, [], c)
  else
    (.ok, [.transferReq sender sender_balance, .balanceZeroed sender],
     { c with balances := fun k => if k = sender then 0 else c.balances k })

/-- `PrisonerDilemma::init` (lines 152-160): empty ledger, pot 0,
threshold 50, no waiting matches, no history. -/
def PrisonerDilemma.init (_params : Params) : PrisonerDilemma :=
  { balances := fun _ => 0, pot := 0, threshold := 50, waiting := [], history := [] }

/-- States reachable from `init` through the mutating entry points. -/
inductive Reachable : SysState → Prop where
  | start (params : Params) : Reachable ⟨PrisonerDilemma.init params, 0⟩
  | step_play (s : SysState) (params : Params) :
      Reachable s → Reachable (PrisonerDilemma.play s params).2
  | step_cash_out (s : SysState) (sender : List ℕ) :
      Reachable s → Reachable ⟨(PrisonerDilemma.cash_out s.contract sender).2.2, s.counter⟩

/-! ## Facts about the machine-integer helpers -/

theorem i64wrap_emod (z : ℤ) : i64wrap z % 2^64 = z % 2^64 := by
  have h64 : (2:ℤ)^64 = 18446744073709551616 := by norm_num
  have h63 : (2:ℤ)^63 = 9223372036854775808 := by norm_num
  unfold i64wrap
  rw [h64, h63]
  omega

theorem i64wrap_eq_of {z : ℤ} (h1 : -(2^63) ≤ z) (h2 : z < 2^63) : i64wrap z = z := by
  have h64 : (2:ℤ)^64 = 18446744073709551616 := by norm_num
  have h63 : (2:ℤ)^63 = 9223372036854775808 := by norm_num
  unfold i64wrap
  rw [h64, h63] at *
  omega

theorem toI64_of_lt {n : ℕ} (h : n < 2^63) : toI64 n = n := by
  unfold toI64
  apply i64wrap_eq_of
  · have : (0:ℤ) ≤ n := Int.ofNat_nonneg n
    norm_num
    omega
  · exact_mod_cast h

theorem wrap64_eq_of {n : ℕ} (h : n < 2^64) : wrap64 n = n := Nat.mod_eq_of_lt h

theorem i64wrap_bounds (z : ℤ) : -(2^63) ≤ i64wrap z ∧ i64wrap z < 2^63 := by
  have h64 : (2:ℤ)^64 = 18446744073709551616 := by norm_num
  have h63 : (2:ℤ)^63 = 9223372036854775808 := by norm_num
  unfold i64wrap
  rw [h64, h63]
  omega

/-! ## Facts about `log2F`, `nlog2`, `findExp` -/

theorem log2F_spec (fuel : ℕ) : ∀ n : ℕ, 1 ≤ n → n ≤ fuel →
    2^(log2F fuel n) ≤ n ∧ n < 2^(log2F fuel n + 1) := by
  induction fuel with
  | zero => intro n h1 h2; omega
  | succ fuel ih =>
    intro n h1 h2
    by_cases hn : n ≤ 1
    · have hn1 : n = 1 := by omega
      subst hn1
      simp [log2F]
    · have ihh := ih (n/2) (by omega) (by omega)
      obtain ⟨ha, hb⟩ := ihh
      rw [pow_succ] at hb
      simp only [log2F, if_neg hn]
      refine ⟨?_, ?_⟩
      · rw [pow_succ]; omega
      · rw [pow_succ, pow_succ]; omega

theorem nlog2_spec {n : ℕ} (h : 1 ≤ n) : 2^(nlog2 n) ≤ n ∧ n < 2^(nlog2 n + 1) :=
  log2F_spec n n h le_rfl

theorem findExp_spec {q : ℚ} (h : 0 < q) :
    (2:ℚ)^(findExp q) ≤ q ∧ q < (2:ℚ)^(findExp q + 1) := by
  have hnum : 0 < q.num := Rat.num_pos.2 h
  have hden : 0 < q.den := q.pos
  have hnum1 : 1 ≤ q.num.toNat := by omega
  have hA := nlog2_spec hnum1
  have hB := nlog2_spec hden
  set a := nlog2 q.num.toNat with hadef
  set b := nlog2 q.den with hbdef
  -- basic rational bounds from the integer log bounds
  have hnc : ((q.num.toNat : ℚ)) = (q.num : ℚ) := by
    have := Int.toNat_of_nonneg hnum.le
    exact_mod_cast congrArg (fun z : ℤ => (z : ℚ)) this
  have hq : (q.num : ℚ) / (q.den : ℚ) = q := Rat.num_div_den q
  have hdenQ : (0:ℚ) < (q.den : ℚ) := by exact_mod_cast hden
  have hnumQ : (0:ℚ) < (q.num : ℚ) := by exact_mod_cast hnum
  have h2a : ((2:ℚ)^(a:ℕ)) ≤ (q.num : ℚ) := by
    rw [← hnc]; exact_mod_cast hA.1
  have h2a' : (q.num : ℚ) < (2:ℚ)^(a+1 : ℕ) := by
    rw [← hnc]; exact_mod_cast hA.2
  have h2b : ((2:ℚ)^(b:ℕ)) ≤ (q.den : ℚ) := by exact_mod_cast hB.1
  have h2b' : (q.den : ℚ) < (2:ℚ)^(b+1 : ℕ) := by exact_mod_cast hB.2
  -- lower: 2^(a-b-1) < q, upper: q < 2^(a-b+1)
  have hlow : (2:ℚ)^((a:ℤ) - b - 1) < q := by
    have hfrac : (2:ℚ)^(a:ℕ) / (2:ℚ)^(b+1:ℕ) < (q.num : ℚ) / (q.den : ℚ) := by
      rw [div_lt_div_iff₀ (by positivity) hdenQ]
      calc (2:ℚ)^(a:ℕ) * (q.den:ℚ) < (2:ℚ)^(a:ℕ) * (2:ℚ)^(b+1:ℕ) := by
            exact mul_lt_mul_of_pos_left h2b' (by positivity)
        _ ≤ (q.num:ℚ) * (2:ℚ)^(b+1:ℕ) := by
            exact mul_le_mul_of_nonneg_right h2a (by positivity)
    rw [hq] at hfrac
    calc (2:ℚ)^((a:ℤ) - b - 1) = (2:ℚ)^(a:ℤ) / (2:ℚ)^((b:ℤ)+1) := by
          rw [← zpow_sub₀ (two_ne_zero)]; ring_nf
      _ = (2:ℚ)^(a:ℕ) / (2:ℚ)^(b+1:ℕ) := by
          rw [← zpow_natCast (2:ℚ) a, ← zpow_natCast (2:ℚ) (b+1)]; push_cast; ring_nf
      _ < q := hfrac
  have hupp : q < (2:ℚ)^((a:ℤ) - b + 1) := by
    have hfrac : (q.num : ℚ) / (q.den : ℚ) < (2:ℚ)^(a+1:ℕ) / (2:ℚ)^(b:ℕ) := by
      rw [div_lt_div_iff₀ hdenQ (by positivity)]
      calc (q.num:ℚ) * (2:ℚ)^(b:ℕ) < (2:ℚ)^(a+1:ℕ) * (2:ℚ)^(b:ℕ) := by
            exact mul_lt_mul_of_pos_right h2a' (by positivity)
        _ ≤ (2:ℚ)^(a+1:ℕ) * (q.den:ℚ) := by
            exact mul_le_mul_of_nonneg_left h2b (by positivity)
    rw [hq] at hfrac
    calc q < (2:ℚ)^(a+1:ℕ) / (2:ℚ)^(b:ℕ) := hfrac
      _ = (2:ℚ)^((a:ℤ)+1) / (2:ℚ)^(b:ℤ) := by
          rw [← zpow_natCast (2:ℚ) (a+1), ← zpow_natCast (2:ℚ) b]; push_cast; ring_nf
      _ = (2:ℚ)^((a:ℤ) - b + 1) := by
          rw [← zpow_sub₀ (two_ne_zero)]; ring_nf
  unfold findExp
  by_cases hbr : (2:ℚ)^((nlog2 q.num.toNat : ℤ) - (nlog2 q.den : ℤ)) ≤ q
  · simp only [← hadef, ← hbdef] at hbr ⊢
    rw [if_pos hbr]
    exact ⟨hbr, by
      have : (a:ℤ) - b + 1 = ((a:ℤ) - b) + 1 := by ring
      exact hupp.trans_le (by rw [this])⟩
  · simp only [← hadef, ← hbdef] at hbr ⊢
    rw [if_neg hbr]
    constructor
    · have : (a:ℤ) - b - 1 = ((a:ℤ) - (b:ℤ)) - 1 := by ring
      exact le_of_lt (by rw [this] at hlow; exact hlow)
    · have : ((a:ℤ) - (b:ℤ)) - 1 + 1 = (a:ℤ) - b := by ring
      rw [this]
      exact lt_of_not_le hbr

theorem findExp_eq_of {q : ℚ} {k : ℤ} (h0 : 0 < q)
    (h1 : (2:ℚ)^k ≤ q) (h2 : q < (2:ℚ)^(k+1)) : findExp q = k := by
  have hs := findExp_spec h0
  by_contra hne
  rcases lt_or_gt_of_ne hne with hlt | hgt
  · have : findExp q + 1 ≤ k := by omega
    have hmono : (2:ℚ)^(findExp q + 1) ≤ (2:ℚ)^k :=
      zpow_le_zpow_right₀ (by norm_num) this
    linarith [hs.2]
  · have : k + 1 ≤ findExp q := by omega
    have hmono : (2:ℚ)^(k+1) ≤ (2:ℚ)^(findExp q) :=
      zpow_le_zpow_right₀ (by norm_num) this
    linarith [hs.1]

theorem findExp_le_of_lt {q : ℚ} {j : ℤ} (h0 : 0 < q) (h : q < (2:ℚ)^(j+1)) :
    findExp q ≤ j := by
  have hs := findExp_spec h0
  by_contra hgt
  have : j + 1 ≤ findExp q := by omega
  have hmono : (2:ℚ)^(j+1) ≤ (2:ℚ)^(findExp q) :=
    zpow_le_zpow_right₀ (by norm_num) this
  linarith [hs.1]

/-! ## Facts about `rne` -/

theorem rne_cases (q : ℚ) : rne q = ⌊q⌋ ∨ rne q = ⌊q⌋ + 1 := by
  unfold rne
  split_ifs <;> simp

theorem floor_le_rne (q : ℚ) : ⌊q⌋ ≤ rne q := by
  rcases rne_cases q with h | h <;> omega

theorem rne_ge (q : ℚ) : q - 1/2 ≤ (rne q : ℚ) := by
  have hf := Int.floor_le q
  have hf' := Int.lt_floor_add_one q
  unfold rne
  split_ifs with h1 h2 h3 <;> push_cast <;> linarith

theorem rne_le (q : ℚ) : (rne q : ℚ) ≤ q + 1/2 := by
  have hf := Int.floor_le q
  have hf' := Int.lt_floor_add_one q
  unfold rne
  split_ifs with h1 h2 h3 <;> push_cast <;> linarith

theorem rne_intCast (n : ℤ) : rne (n : ℚ) = n := by
  unfold rne
  simp [Int.floor_intCast]

theorem rne_int_le {q : ℚ} {N : ℤ} (h : (N:ℚ) ≤ q) : N ≤ rne q :=
  le_trans (Int.le_floor.2 h) (floor_le_rne q)

/-! ## Facts about `flRat` -/

theorem flRat_of_nonpos {q : ℚ} (h : q ≤ 0) : flRat q = 0 := by
  unfold flRat
  rw [if_pos h]

theorem zpow_sub_one_q (k : ℤ) : (2:ℚ)^(k - 1) = (2:ℚ)^k / 2 := by
  rw [zpow_sub₀ (two_ne_zero : (2:ℚ) ≠ 0), zpow_one]

theorem flRat_nonneg (q : ℚ) : 0 ≤ flRat q := by
  unfold flRat
  split_ifs with h
  · exact le_rfl
  · push_neg at h
    have hu : (0:ℚ) < (2:ℚ)^(findExp q - 52) := zpow_pos (by norm_num) _
    have hy : (0:ℚ) ≤ q / (2:ℚ)^(findExp q - 52) := le_of_lt (div_pos h hu)
    have hr : (0:ℤ) ≤ rne (q / (2:ℚ)^(findExp q - 52)) := rne_int_le (by exact_mod_cast hy)
    have : (0:ℚ) ≤ (rne (q / (2:ℚ)^(findExp q - 52)) : ℚ) := by exact_mod_cast hr
    exact mul_nonneg this hu.le

theorem flRat_le (q : ℚ) (h : 0 < q) :
    flRat q ≤ q + (2:ℚ)^(findExp q - 53) := by
  unfold flRat
  rw [if_neg (not_le.2 h)]
  have hu : (0:ℚ) < (2:ℚ)^(findExp q - 52) := zpow_pos (by norm_num) _
  have h1 := rne_le (q / (2:ℚ)^(findExp q - 52))
  have hsplit : (2:ℚ)^(findExp q - 53) = (2:ℚ)^(findExp q - 52) / 2 := by
    rw [show findExp q - 53 = (findExp q - 52) - 1 by ring, zpow_sub_one_q]
  calc (rne (q / (2:ℚ)^(findExp q - 52)) : ℚ) * (2:ℚ)^(findExp q - 52)
      ≤ (q / (2:ℚ)^(findExp q - 52) + 1/2) * (2:ℚ)^(findExp q - 52) :=
        mul_le_mul_of_nonneg_right h1 hu.le
    _ = q + (2:ℚ)^(findExp q - 52) / 2 := by field_simp; ring
    _ = q + (2:ℚ)^(findExp q - 53) := by rw [hsplit]

theorem flRat_ge (q : ℚ) (h : 0 < q) :
    q - (2:ℚ)^(findExp q - 53) ≤ flRat q := by
  unfold flRat
  rw [if_neg (not_le.2 h)]
  have hu : (0:ℚ) < (2:ℚ)^(findExp q - 52) := zpow_pos (by norm_num) _
  have h1 := rne_ge (q / (2:ℚ)^(findExp q - 52))
  have hsplit : (2:ℚ)^(findExp q - 53) = (2:ℚ)^(findExp q - 52) / 2 := by
    rw [show findExp q - 53 = (findExp q - 52) - 1 by ring, zpow_sub_one_q]
  calc q - (2:ℚ)^(findExp q - 53)
      = (q / (2:ℚ)^(findExp q - 52) - 1/2) * (2:ℚ)^(findExp q - 52) := by
        rw [hsplit]
        field_simp
        ring
    _ ≤ (rne (q / (2:ℚ)^(findExp q - 52)) : ℚ) * (2:ℚ)^(findExp q - 52) :=
        mul_le_mul_of_nonneg_right h1 hu.le

theorem halfulp_le (q : ℚ) (h : 0 < q) :
    (2:ℚ)^(findExp q - 53) ≤ q / 2^53 := by
  have hs := (findExp_spec h).1
  have : (2:ℚ)^(findExp q - 53) = (2:ℚ)^(findExp q) / (2:ℚ)^(53:ℤ) := by
    rw [← zpow_sub₀ (two_ne_zero : (2:ℚ) ≠ 0)]
  rw [this]
  have h53 : (2:ℚ)^(53:ℤ) = (2:ℚ)^(53:ℕ) := by norm_num
  rw [h53]
  exact div_le_div_of_nonneg_right hs (by positivity) |>.trans_eq rfl

theorem flRat_le' (q : ℚ) (h : 0 < q) : flRat q ≤ q + q / 2^53 :=
  (flRat_le q h).trans (by linarith [halfulp_le q h])

theorem flRat_ge' (q : ℚ) (h : 0 < q) : q - q / 2^53 ≤ flRat q :=
  le_trans (by linarith [halfulp_le q h]) (flRat_ge q h)

theorem zpow_e_cancel {k : ℤ} (hk : k ≤ 52) :
    (2:ℚ)^((52 - k).toNat) * (2:ℚ)^(k - 52) = 1 := by
  rw [← zpow_natCast (2:ℚ) ((52 - k).toNat), ← zpow_add₀ (two_ne_zero : (2:ℚ) ≠ 0),
      Int.toNat_of_nonneg (show (0:ℤ) ≤ 52 - k by omega),
      show (52:ℤ) - k + (k - 52) = 0 by ring, zpow_zero]

theorem div_zpow_eq_mul {q : ℚ} {k : ℤ} (hk : k ≤ 52) :
    q / (2:ℚ)^(k - 52) = q * (2:ℚ)^((52 - k).toNat) := by
  have he : (((52 - k).toNat : ℕ) : ℤ) = 52 - k :=
    Int.toNat_of_nonneg (by omega)
  rw [div_eq_mul_inv, ← zpow_neg, ← zpow_natCast (2:ℚ) ((52 - k).toNat), he,
      show -(k - 52) = 52 - k by ring]

theorem rne_natCast (m : ℕ) : rne (m : ℚ) = m := by
  have hc : ((m:ℕ):ℚ) = (((m:ℤ)):ℚ) := by push_cast; ring
  rw [hc, rne_intCast]

theorem flRat_int_le {q : ℚ} (N : ℕ) (h0 : 0 < q) (h1 : (N:ℚ) ≤ q)
    (h2 : N < 2^53) : (N:ℚ) ≤ flRat q := by
  unfold flRat
  rw [if_neg (not_le.2 h0)]
  by_cases hk52 : findExp q ≤ 52
  · have hy : ((N * 2^(52 - findExp q).toNat : ℕ) : ℚ) ≤ q / (2:ℚ)^(findExp q - 52) := by
      rw [div_zpow_eq_mul hk52]
      push_cast
      exact mul_le_mul_of_nonneg_right h1 (by positivity)
    have hr : ((N * 2^(52 - findExp q).toNat : ℕ) : ℤ) ≤ rne (q / (2:ℚ)^(findExp q - 52)) :=
      rne_int_le (by exact_mod_cast hy)
    calc (N:ℚ) = ((N * 2^(52 - findExp q).toNat : ℕ) : ℚ) * (2:ℚ)^(findExp q - 52) := by
          push_cast
          rw [mul_assoc, zpow_e_cancel hk52, mul_one]
      _ ≤ (rne (q / (2:ℚ)^(findExp q - 52)) : ℚ) * (2:ℚ)^(findExp q - 52) :=
          mul_le_mul_of_nonneg_right (by exact_mod_cast hr) (by positivity)
  · push_neg at hk52
    have hklow : (2:ℚ)^(findExp q) ≤ q := (findExp_spec h0).1
    have hy : ((2^52 : ℕ) : ℚ) ≤ q / (2:ℚ)^(findExp q - 52) := by
      have hdiv : (2:ℚ)^(findExp q) / (2:ℚ)^(findExp q - 52) = (2:ℚ)^(52:ℤ) := by
        rw [← zpow_sub₀ (two_ne_zero : (2:ℚ) ≠ 0),
            show findExp q - (findExp q - 52) = 52 by ring]
      calc ((2^52 : ℕ) : ℚ) = (2:ℚ)^(52:ℤ) := by norm_num
        _ = (2:ℚ)^(findExp q) / (2:ℚ)^(findExp q - 52) := hdiv.symm
        _ ≤ q / (2:ℚ)^(findExp q - 52) :=
            div_le_div_of_nonneg_right hklow (by positivity) |>.trans_eq rfl
    have hr : ((2^52 : ℕ) : ℤ) ≤ rne (q / (2:ℚ)^(findExp q - 52)) :=
      rne_int_le (by exact_mod_cast hy)
    have hNlt : (N:ℚ) < (2:ℚ)^(findExp q) := by
      have hN53 : (N:ℚ) < (2:ℚ)^(53:ℤ) := by
        have : (N:ℚ) < ((2^53 : ℕ) : ℚ) := by exact_mod_cast h2
        calc (N:ℚ) < ((2^53 : ℕ) : ℚ) := this
          _ = (2:ℚ)^(53:ℤ) := by norm_num
      exact hN53.trans_le (zpow_le_zpow_right₀ (by norm_num) hk52)
    have hfinal : (2:ℚ)^(findExp q) =
        ((2^52 : ℕ) : ℚ) * (2:ℚ)^(findExp q - 52) := by
      rw [show ((2^52:ℕ):ℚ) = (2:ℚ)^(52:ℤ) by norm_num,
          ← zpow_add₀ (two_ne_zero : (2:ℚ) ≠ 0),
          show (52:ℤ) + (findExp q - 52) = findExp q by ring]
    calc (N:ℚ) ≤ (2:ℚ)^(findExp q) := hNlt.le
      _ = ((2^52 : ℕ) : ℚ) * (2:ℚ)^(findExp q - 52) := hfinal
      _ ≤ (rne (q / (2:ℚ)^(findExp q - 52)) : ℚ) * (2:ℚ)^(findExp q - 52) :=
          mul_le_mul_of_nonneg_right (by exact_mod_cast hr) (by positivity)

theorem flRat_round_up {q : ℚ} (N : ℕ) (h0 : 0 < q) (hk52 : findExp q ≤ 52)
    (h : (N:ℚ) - (2:ℚ)^(findExp q - 53) < q) : (N:ℚ) ≤ flRat q := by
  unfold flRat
  rw [if_neg (not_le.2 h0)]
  have hhalf : (2:ℚ)^(findExp q - 53) * (2:ℚ)^((52 - findExp q).toNat) = 1/2 := by
    rw [← zpow_natCast (2:ℚ) ((52 - findExp q).toNat), ← zpow_add₀ (two_ne_zero : (2:ℚ) ≠ 0),
        Int.toNat_of_nonneg (show (0:ℤ) ≤ 52 - findExp q by omega),
        show findExp q - 53 + (52 - findExp q) = -1 by ring]
    norm_num
  have hy : ((N * 2^(52 - findExp q).toNat : ℕ) : ℚ) - 1/2 < q / (2:ℚ)^(findExp q - 52) := by
    rw [div_zpow_eq_mul hk52]
    have hmul := mul_lt_mul_of_pos_right h
      (show (0:ℚ) < (2:ℚ)^((52 - findExp q).toNat) by positivity)
    rw [sub_mul, hhalf] at hmul
    push_cast
    linarith
  have hr : ((N * 2^(52 - findExp q).toNat : ℕ) : ℤ) ≤ rne (q / (2:ℚ)^(findExp q - 52)) := by
    have hg := rne_ge (q / (2:ℚ)^(findExp q - 52))
    have hq1 : ((N * 2^(52 - findExp q).toNat : ℕ) : ℚ) - 1 <
        (rne (q / (2:ℚ)^(findExp q - 52)) : ℚ) := by linarith
    have hq2 : ((N * 2^(52 - findExp q).toNat : ℕ) : ℤ) - 1 <
        rne (q / (2:ℚ)^(findExp q - 52)) := by exact_mod_cast hq1
    omega
  calc (N:ℚ) = ((N * 2^(52 - findExp q).toNat : ℕ) : ℚ) * (2:ℚ)^(findExp q - 52) := by
        push_cast
        rw [mul_assoc, zpow_e_cancel hk52, mul_one]
    _ ≤ (rne (q / (2:ℚ)^(findExp q - 52)) : ℚ) * (2:ℚ)^(findExp q - 52) :=
        mul_le_mul_of_nonneg_right (by exact_mod_cast hr) (by positivity)

theorem flRat_natCast (n : ℕ) (h1 : 0 < n) (h2 : n < 2^53) : flRat (n:ℚ) = (n:ℚ) := by
  have h0 : (0:ℚ) < n := by exact_mod_cast h1
  have hk52 : findExp (n:ℚ) ≤ 52 := by
    apply findExp_le_of_lt h0
    have hc : ((n:ℚ)) < ((2^53 : ℕ) : ℚ) := by exact_mod_cast h2
    calc (n:ℚ) < ((2^53:ℕ):ℚ) := hc
      _ = (2:ℚ)^((52:ℤ) + 1) := by norm_num
  unfold flRat
  rw [if_neg (not_le.2 h0)]
  have hy : (n:ℚ) / (2:ℚ)^(findExp (n:ℚ) - 52) =
      ((n * 2^(52 - findExp (n:ℚ)).toNat : ℕ) : ℚ) := by
    rw [div_zpow_eq_mul hk52]
    push_cast
    ring
  rw [hy, rne_natCast]
  push_cast
  rw [mul_assoc, zpow_e_cancel hk52, mul_one]

theorem rne_eq_of_floor_lt (f : ℤ) {q : ℚ} (hf : ⌊q⌋ = f) (h : q - f < 1/2) :
    rne q = f := by
  unfold rne
  rw [hf, if_pos h]

theorem rne_eq_of_floor_gt (f : ℤ) {q : ℚ} (hf : ⌊q⌋ = f) (h : (1/2:ℚ) < q - f) :
    rne q = f + 1 := by
  unfold rne
  rw [hf, if_neg (by linarith), if_pos h]

theorem flRat_eval (k v : ℤ) {q : ℚ} (h0 : 0 < q)
    (hk1 : (2:ℚ)^k ≤ q) (hk2 : q < (2:ℚ)^(k+1))
    (hr : rne (q / (2:ℚ)^(k - 52)) = v) :
    flRat q = (v:ℚ) * (2:ℚ)^(k-52) := by
  unfold flRat
  rw [if_neg (not_le.2 h0), findExp_eq_of h0 hk1 hk2, hr]

/-- The exact binary64 value of the literal `0.01`. -/
theorem lit001_val : lit001 = 5764607523034235 / 576460752303423488 := by
  unfold lit001
  have h0 : (0:ℚ) < 1/100 := by norm_num
  have hr : rne ((1/100 : ℚ) / (2:ℚ)^((-7:ℤ) - 52)) = 5764607523034235 := by
    rw [show ((-7:ℤ) - 52) = -59 by norm_num]
    have hstep := rne_eq_of_floor_gt 5764607523034234
      (show ⌊(1/100 : ℚ) / (2:ℚ)^(-59:ℤ)⌋ = 5764607523034234 by norm_num)
      (by norm_num)
    exact hstep.trans (by norm_num)
  rw [flRat_eval (-7) 5764607523034235 h0 (by norm_num) (by norm_num) hr]
  norm_num

/-- The exact binary64 value of the literal `0.015`. -/
theorem lit0015_val : lit0015 = 8646911284551352 / 576460752303423488 := by
  unfold lit0015
  have h0 : (0:ℚ) < 15/1000 := by norm_num
  have hr : rne ((15/1000 : ℚ) / (2:ℚ)^((-7:ℤ) - 52)) = 8646911284551352 := by
    rw [show ((-7:ℤ) - 52) = -59 by norm_num]
    exact rne_eq_of_floor_lt 8646911284551352
      (show ⌊(15/1000 : ℚ) / (2:ℚ)^(-59:ℤ)⌋ = 8646911284551352 by norm_num)
      (by norm_num)
  rw [flRat_eval (-7) 8646911284551352 h0 (by norm_num) (by norm_num) hr]
  norm_num

theorem f64toU64_eq_of {q : ℚ} {N : ℕ} (h1 : (N:ℚ) ≤ q) (h2 : q < (N:ℚ)+1)
    (h3 : N < 2^64 - 1) : f64toU64 q = N := by
  unfold f64toU64
  by_cases hq : q ≤ 0
  · rw [if_pos hq]
    have hN0 : (N:ℚ) = 0 := le_antisymm (le_trans h1 hq) (by positivity)
    exact_mod_cast hN0.symm
  · rw [if_neg hq]
    have hfl : ⌊q⌋ = (N:ℤ) := by
      rw [Int.floor_eq_iff]
      exact ⟨by exact_mod_cast h1, by push_cast; exact h2⟩
    rw [hfl, Int.toNat_natCast]
    omega

/-! ## Concrete dividend evaluations -/

theorem potDividend01_zero : potDividend01 0 = 0 := by
  unfold potDividend01 f64mul f64ofU64
  rw [Nat.cast_zero, flRat_of_nonpos le_rfl, mul_zero, flRat_of_nonpos le_rfl]
  unfold f64toU64
  rw [if_pos le_rfl]

theorem potDividend015_zero : potDividend015 0 = 0 := by
  unfold potDividend015 f64mul f64ofU64
  rw [Nat.cast_zero, flRat_of_nonpos le_rfl, mul_zero, flRat_of_nonpos le_rfl]
  unfold f64toU64
  rw [if_pos le_rfl]

theorem f64ofU64_two60 : f64ofU64 (2^60) = (1152921504606846976 : ℚ) := by
  unfold f64ofU64
  have hcast : ((2^60 : ℕ) : ℚ) = (1152921504606846976 : ℚ) := by norm_num
  rw [hcast]
  have hr : rne ((1152921504606846976 : ℚ) / (2:ℚ)^((60:ℤ) - 52)) = 4503599627370496 := by
    rw [show ((1152921504606846976 : ℚ) / (2:ℚ)^((60:ℤ) - 52)) =
        ((4503599627370496 : ℤ) : ℚ) by norm_num]
    exact rne_intCast _
  rw [flRat_eval 60 4503599627370496 (by norm_num) (by norm_num) (by norm_num) hr]
  norm_num

theorem potDividend01_two60 : potDividend01 (2^60) = 11529215046068470 := by
  unfold potDividend01
  rw [f64ofU64_two60]
  unfold f64mul
  rw [lit001_val]
  rw [show ((5764607523034235 / 576460752303423488 : ℚ) * (1152921504606846976 : ℚ)) =
      (11529215046068470 : ℚ) by norm_num]
  have hr : rne ((11529215046068470 : ℚ) / (2:ℚ)^((53:ℤ) - 52)) = 5764607523034235 := by
    rw [show ((11529215046068470 : ℚ) / (2:ℚ)^((53:ℤ) - 52)) =
        ((5764607523034235 : ℤ) : ℚ) by norm_num]
    exact rne_intCast _
  rw [flRat_eval 53 5764607523034235 (by norm_num) (by norm_num) (by norm_num) hr]
  rw [show ((5764607523034235 : ℤ) : ℚ) * (2:ℚ)^((53:ℤ) - 52) = (11529215046068470 : ℚ)
      by norm_num]
  exact f64toU64_eq_of (by norm_num) (by norm_num) (by norm_num)

/-- For pots up to `2^46`, the binary64 computation `(0.01 * pot as f64) as u64`
agrees with the exact integer truncation `pot / 100`. -/
theorem dividend01_exact (pot : ℕ) (hpot : pot ≤ 2^46) :
    potDividend01 pot = pot / 100 := by
  have hpot' : pot ≤ 70368744177664 := by
    norm_num at hpot
    exact hpot
  rcases Nat.eq_zero_or_pos pot with h0 | h0
  · subst h0
    simpa using potDividend01_zero
  · have hpQ : (0:ℚ) < (pot:ℚ) := by exact_mod_cast h0
    have hp53 : pot < 2^53 := by
      calc pot ≤ 70368744177664 := hpot'
        _ < 2^53 := by norm_num
    have hfl : f64ofU64 pot = (pot:ℚ) := flRat_natCast pot h0 hp53
    unfold potDividend01 f64mul
    rw [hfl]
    have hlpos : (0:ℚ) < lit001 := by rw [lit001_val]; norm_num
    have hxpos : (0:ℚ) < lit001 * pot := mul_pos hlpos hpQ
    have hdm : 100 * (pot / 100) + pot % 100 = pot := Nat.div_add_mod pot 100
    have hmlt : pot % 100 < 100 := Nat.mod_lt _ (by norm_num)
    have hkle : pot / 100 ≤ 703687441776 := by omega
    have hdmQ : (100:ℚ) * ((pot / 100 : ℕ) : ℚ) + ((pot % 100 : ℕ) : ℚ) = (pot:ℚ) := by
      exact_mod_cast hdm
    have hmQ : ((pot % 100 : ℕ) : ℚ) ≤ 99 := by
      exact_mod_cast (by omega : pot % 100 ≤ 99)
    have hmQ0 : (0:ℚ) ≤ ((pot % 100 : ℕ) : ℚ) := by positivity
    have hkQ : ((pot / 100 : ℕ) : ℚ) ≤ 703687441776 := by exact_mod_cast hkle
    have hkQ0 : (0:ℚ) ≤ ((pot / 100 : ℕ) : ℚ) := by positivity
    have hpotQ : (pot : ℚ) ≤ 70368744177664 := by exact_mod_cast hpot'
    have hc_lo : (1/100 : ℚ) ≤ lit001 := by rw [lit001_val]; norm_num
    have hlow : ((pot / 100 : ℕ) : ℚ) ≤ lit001 * pot := by
      have h1 : (1/100 : ℚ) * pot ≤ lit001 * pot :=
        mul_le_mul_of_nonneg_right hc_lo hpQ.le
      linarith
    have hLB : ((pot / 100 : ℕ) : ℚ) ≤ flRat (lit001 * pot) :=
      flRat_int_le (pot / 100) hxpos hlow (by
        have hb : (703687441776:ℕ) < 2^53 := by norm_num
        omega)
    have hc_hi : lit001 ≤ 1/100 + 1/450359962737049600 := by rw [lit001_val]; norm_num
    have hxup : lit001 * pot ≤ (1/100 + 1/450359962737049600) * pot :=
      mul_le_mul_of_nonneg_right hc_hi hpQ.le
    have hflup := flRat_le' (lit001 * pot) hxpos
    norm_num at hflup
    have hUB : flRat (lit001 * pot) < ((pot / 100 : ℕ) : ℚ) + 1 := by
      linarith
    exact f64toU64_eq_of hLB hUB (by
      have hb : (703687441776:ℕ) < 2^64 - 1 := by norm_num
      omega)

/-- For pots up to `2^46`, the binary64 computation `(0.015 * pot as f64) as u64`
agrees with the exact integer truncation `3 * pot / 200`. -/
theorem dividend015_exact (pot : ℕ) (hpot : pot ≤ 2^46) :
    potDividend015 pot = 3 * pot / 200 := by
  have hpot' : pot ≤ 70368744177664 := by
    norm_num at hpot
    exact hpot
  rcases Nat.eq_zero_or_pos pot with h0 | h0
  · subst h0
    simpa using potDividend015_zero
  · have hpQ : (0:ℚ) < (pot:ℚ) := by exact_mod_cast h0
    have hp53 : pot < 2^53 := by
      calc pot ≤ 70368744177664 := hpot'
        _ < 2^53 := by norm_num
    have hfl : f64ofU64 pot = (pot:ℚ) := flRat_natCast pot h0 hp53
    unfold potDividend015 f64mul
    rw [hfl]
    have hlpos : (0:ℚ) < lit0015 := by rw [lit0015_val]; norm_num
    have hxpos : (0:ℚ) < lit0015 * pot := mul_pos hlpos hpQ
    have hdm : 200 * (3 * pot / 200) + 3 * pot % 200 = 3 * pot :=
      Nat.div_add_mod (3*pot) 200
    have hmlt : 3 * pot % 200 < 200 := Nat.mod_lt _ (by norm_num)
    have hkle : 3 * pot / 200 ≤ 1055531162664 := by omega
    have hdmQ : (200:ℚ) * ((3 * pot / 200 : ℕ) : ℚ) + ((3 * pot % 200 : ℕ) : ℚ)
        = 3 * (pot:ℚ) := by exact_mod_cast hdm
    have hmQ : ((3 * pot % 200 : ℕ) : ℚ) ≤ 199 := by
      exact_mod_cast (by omega : 3 * pot % 200 ≤ 199)
    have hmQ0 : (0:ℚ) ≤ ((3 * pot % 200 : ℕ) : ℚ) := by positivity
    have hkQ : ((3 * pot / 200 : ℕ) : ℚ) ≤ 1055531162664 := by exact_mod_cast hkle
    have hkQ0 : (0:ℚ) ≤ ((3 * pot / 200 : ℕ) : ℚ) := by positivity
    have hpotQ : (pot : ℚ) ≤ 70368744177664 := by exact_mod_cast hpot'
    have hc_eq : lit0015 = 3/200 - 1/1801439850948198400 := by
      rw [lit0015_val]; norm_num
    have hxval : lit0015 * pot = (3/200) * pot - (1/1801439850948198400) * pot := by
      rw [hc_eq]; ring
    have hflup := flRat_le' (lit0015 * pot) hxpos
    norm_num at hflup
    have hUB : flRat (lit0015 * pot) < ((3 * pot / 200 : ℕ) : ℚ) + 1 := by
      linarith
    have hLB : ((3 * pot / 200 : ℕ) : ℚ) ≤ flRat (lit0015 * pot) := by
      rcases Nat.eq_zero_or_pos (3 * pot % 200) with hm0 | hmpos
      · -- the product sits just below the integer 3*pot/200: nearest rounding
        -- goes back up to it
        have hdmQ0 : (200:ℚ) * ((3 * pot / 200 : ℕ) : ℚ) = 3 * (pot:ℚ) := by
          have : ((3 * pot % 200 : ℕ) : ℚ) = 0 := by exact_mod_cast hm0
          linarith
        have hk52 : findExp (lit0015 * pot) ≤ 52 := by
          apply findExp_le_of_lt hxpos
          have hlt : lit0015 * pot < 9007199254740992 := by linarith
          calc lit0015 * ↑pot < 9007199254740992 := hlt
            _ = (2:ℚ)^((52:ℤ)+1) := by norm_num
        apply flRat_round_up _ hxpos hk52
        have hs2 := (findExp_spec hxpos).2
        have hsplit : (2:ℚ)^(findExp (lit0015 * (pot:ℚ)) - 53)
            = (2:ℚ)^(findExp (lit0015 * (pot:ℚ)) + 1) / 18014398509481984 := by
          rw [show findExp (lit0015 * (pot:ℚ)) - 53
              = (findExp (lit0015 * (pot:ℚ)) + 1) - 54 by ring,
            zpow_sub₀ (two_ne_zero : (2:ℚ) ≠ 0)]
          norm_num
        have hhalf : (lit0015 * (pot:ℚ)) / 18014398509481984
            < (2:ℚ)^(findExp (lit0015 * (pot:ℚ)) - 53) := by
          rw [hsplit]
          have hden : (0:ℚ) < 18014398509481984 := by norm_num
          exact (div_lt_div_iff_of_pos_right hden).2 hs2
        have hkx : ((3 * pot / 200 : ℕ) : ℚ)
            ≤ lit0015 * pot + (lit0015 * pot) / 18014398509481984 := by
          linarith
        linarith
      · apply flRat_int_le _ hxpos ?hone ?htwo
        case hone =>
          have hm1 : (1:ℚ) ≤ ((3 * pot % 200 : ℕ) : ℚ) := by exact_mod_cast hmpos
          linarith
        case htwo =>
          have hb : (1055531162664:ℕ) < 2^53 := by norm_num
          omega
    exact f64toU64_eq_of hLB hUB (by
      have hb : (1055531162664:ℕ) < 2^64 - 1 := by norm_num
      omega)

/-! ## Claim theorems -/

/-- Claim C2, counterexample: at `pot = 2^60` the code's binary64 dividend
`(0.01 * pot as f64) as u64` equals `11529215046068470`, which is one more
than the exact integer truncation `2^60 / 100 = 11529215046068469`; the
claimed exact agreement "for any pot value" is therefore false. -/
theorem c2_dividend_cex :
    potDividend01 (2^60) = 11529215046068470 ∧
    (2^60 : ℕ) / 100 = 11529215046068469 ∧
    potDividend01 (2^60) ≠ (2^60 : ℕ) / 100 := by
  refine ⟨potDividend01_two60, by norm_num, ?_⟩
  rw [potDividend01_two60]
  norm_num

/-- Claim C2 (amended): the pot dividends are binary64 floating-point
products truncated toward zero; they equal the exact integer truncations
`floor(0.01 * pot) = pot / 100` and `floor(0.015 * pot) = 3 * pot / 200`
for every `pot ≤ 2^46`, but can exceed the exact value for larger pots
(see the counterexample at `pot = 2^60`). -/
theorem c2_dividend_amended (pot : ℕ) (hpot : pot ≤ 2^46) :
    potDividend01 pot = pot / 100 ∧ potDividend015 pot = 3 * pot / 200 :=
  ⟨dividend01_exact pot hpot, dividend015_exact pot hpot⟩

/-- Witness for `c2_dividend_amended` at `pot = 200`. -/
theorem c2_dividend_amended_witness :
    (200:ℕ) ≤ 2^46 ∧ potDividend01 200 = 200 / 100 ∧
      potDividend015 200 = 3 * 200 / 200 :=
  ⟨by norm_num, (c2_dividend_amended 200 (by norm_num)).1,
   (c2_dividend_amended 200 (by norm_num)).2⟩

/-- Claim C1, counterexample: in a completed defect/defect match with stakes
`2^63` and `0`, the pot delta is computed as `(2^63 + 0) as i64 = -2^63`,
so the net deltas (payout minus stake for each player, plus the pot delta)
sum to `-2^64` rather than `0`: conservation fails as stated. -/
theorem c1_conservation_cex :
    (Match.play (Match.new "1" ⟨[0], [], 2^63, 2⟩) ⟨[1], [], 0, 2⟩ 0).pot_payout
      = -(2^63)
    ∧ ¬ ((((Match.play (Match.new "1" ⟨[0], [], 2^63, 2⟩) ⟨[1], [], 0, 2⟩ 0).p1_payout : ℤ)
            - 2^63)
        + ((((Match.play (Match.new "1" ⟨[0], [], 2^63, 2⟩) ⟨[1], [], 0, 2⟩ 0).p2_payout : ℤ)
            - 0))
        + (Match.play (Match.new "1" ⟨[0], [], 2^63, 2⟩) ⟨[1], [], 0, 2⟩ 0).pot_payout
          = 0) := by
  have hplay : Match.play (Match.new "1" ⟨[0], [], 2^63, 2⟩) ⟨[1], [], 0, 2⟩ 0
      = { id := "1", p1 := ⟨[0], [], 2^63, 2⟩, p2 := some ⟨[1], [], 0, 2⟩,
          p1_payout := 0, p2_payout := 0, pot_payout := -(2^63) } := by
    unfold Match.play Match.new
    norm_num [wrap64, toI64, i64wrap]
  rw [hplay]
  norm_num

/-- `Match::play` in the defect/defect case. -/
theorem Match_play_dd (m : Match) (p2 : Player) (pot : ℕ)
    (h1 : m.p1.vote = 2) (h2 : p2.vote = 2) :
    Match.play m p2 pot =
      { m with
        p1_payout := 0
        p2_payout := 0
        pot_payout := toI64 (wrap64 (m.p1.stake + p2.stake))
        p2 := some p2 } := by
  unfold Match.play
  rw [if_pos ⟨h1, h2⟩]

/-- `Match::play` in the cooperate/cooperate case. -/
theorem Match_play_cc (m : Match) (p2 : Player) (pot : ℕ)
    (h1 : m.p1.vote = 1) (h2 : p2.vote = 1) :
    Match.play m p2 pot =
      { m with
        p1_payout := wrap64 (m.p1.stake + potDividend01 pot)
        p2_payout := wrap64 (p2.stake + potDividend01 pot)
        pot_payout := negI64 (toI64 (wrap64 (potDividend01 pot + potDividend01 pot)))
        p2 := some p2 } := by
  unfold Match.play
  rw [if_neg (by simp [h1]), if_pos ⟨h1, h2⟩]

/-- `Match::play` in the cooperate/defect case. -/
theorem Match_play_cd (m : Match) (p2 : Player) (pot : ℕ)
    (h1 : m.p1.vote = 1) (h2 : p2.vote = 2) :
    Match.play m p2 pot =
      { m with
        p1_payout := 0
        p2_payout := wrap64 (wrap64 (p2.stake + m.p1.stake) + potDividend015 pot)
        pot_payout := negI64 (toI64 (potDividend015 pot))
        p2 := some p2 } := by
  unfold Match.play
  rw [if_neg (by simp [h1]), if_neg (by simp [h2]), if_pos ⟨h1, h2⟩]

/-- `Match::play` in the defect/cooperate case. -/
theorem Match_play_dc (m : Match) (p2 : Player) (pot : ℕ)
    (h1 : m.p1.vote = 2) (h2 : p2.vote = 1) :
    Match.play m p2 pot =
      { m with
        p1_payout := wrap64 (wrap64 (p2.stake + m.p1.stake) + potDividend015 pot)
        p2_payout := 0
        pot_payout := negI64 (toI64 (potDividend015 pot))
        p2 := some p2 } := by
  unfold Match.play
  rw [if_neg (by simp [h2]), if_neg (by simp [h1]), if_neg (by simp [h1]),
      if_pos ⟨h1, h2⟩]

/-- Claim C1 (amended): for every completed match (both votes valid), the
net deltas — each player's payout minus their stake, plus the pot delta —
sum to `0` modulo `2^64` unconditionally, and sum to exactly `0` whenever
the payoff arithmetic stays inside the `i64`/`u64` ranges (no wrapping of
the `as i64` casts or the `u64` additions). -/
theorem c1_conservation_amended (m : Match) (p2 : Player) (pot : ℕ)
    (hv1 : m.p1.vote = 1 ∨ m.p1.vote = 2) (hv2 : p2.vote = 1 ∨ p2.vote = 2) :
    ((((Match.play m p2 pot).p1_payout : ℤ) - m.p1.stake)
      + (((Match.play m p2 pot).p2_payout : ℤ) - p2.stake)
      + (Match.play m p2 pot).pot_payout) % 2^64 = 0
    ∧ (m.p1.stake + p2.stake + potDividend015 pot < 2^63 →
       m.p1.stake + potDividend01 pot < 2^64 →
       p2.stake + potDividend01 pot < 2^64 →
       2 * potDividend01 pot < 2^63 →
       (((Match.play m p2 pot).p1_payout : ℤ) - m.p1.stake)
         + (((Match.play m p2 pot).p2_payout : ℤ) - p2.stake)
         + (Match.play m p2 pot).pot_payout = 0) := by
  rcases hv1 with hv1 | hv1 <;> rcases hv2 with hv2 | hv2
  · -- cooperate / cooperate
    rw [Match_play_cc m p2 pot hv1 hv2]
    simp only
    refine ⟨?_, ?_⟩
    · simp only [wrap64, negI64, toI64, i64wrap]
      omega
    · intro h1 h2 h3 h4
      rw [wrap64_eq_of h2, wrap64_eq_of h3, wrap64_eq_of (by omega),
          toI64_of_lt (by omega)]
      unfold negI64
      rw [i64wrap_eq_of (by omega) (by omega)]
      push_cast
      ring
  · -- cooperate / defect
    rw [Match_play_cd m p2 pot hv1 hv2]
    simp only
    refine ⟨?_, ?_⟩
    · simp only [wrap64, negI64, toI64, i64wrap]
      omega
    · intro h1 h2 h3 h4
      rw [wrap64_eq_of (show p2.stake + m.p1.stake < 2^64 by omega),
          wrap64_eq_of (by omega), toI64_of_lt (by omega)]
      unfold negI64
      rw [i64wrap_eq_of (by omega) (by omega)]
      push_cast
      ring
  · -- defect / cooperate
    rw [Match_play_dc m p2 pot hv1 hv2]
    simp only
    refine ⟨?_, ?_⟩
    · simp only [wrap64, negI64, toI64, i64wrap]
      omega
    · intro h1 h2 h3 h4
      rw [wrap64_eq_of (show p2.stake + m.p1.stake < 2^64 by omega),
          wrap64_eq_of (by omega), toI64_of_lt (by omega)]
      unfold negI64
      rw [i64wrap_eq_of (by omega) (by omega)]
      push_cast
      ring
  · -- defect / defect
    rw [Match_play_dd m p2 pot hv1 hv2]
    simp only
    refine ⟨?_, ?_⟩
    · simp only [wrap64, negI64, toI64, i64wrap]
      omega
    · intro h1 h2 h3 h4
      rw [wrap64_eq_of (by omega), toI64_of_lt (by omega)]
      push_cast
      ring

/-! ## Projection helpers for the play paths -/

theorem prune_threshold (p : PrisonerDilemma) :
    (prune_old_history p).threshold = p.threshold := by
  unfold prune_old_history
  split <;> rfl

theorem prune_balances (p : PrisonerDilemma) :
    (prune_old_history p).balances = p.balances := by
  unfold prune_old_history
  split <;> rfl

theorem prune_waiting (p : PrisonerDilemma) :
    (prune_old_history p).waiting = p.waiting := by
  unfold prune_old_history
  split <;> rfl

theorem play_invalid (s : SysState) (params : Params)
    (h : params.vote ≠ 1 ∧ params.vote ≠ 2) :
    PrisonerDilemma.play s params = (.invalidVote, s) := by
  unfold PrisonerDilemma.play
  rw [if_pos h]

theorem play_admission_parked (s : SysState) (params : Params)
    (hv : ¬ (params.vote ≠ 1 ∧ params.vote ≠ 2))
    (h : random params > s.contract.threshold) :
    PrisonerDilemma.play s params =
      parkPlayer s
        ⟨params.sender, params.transaction_id, params.amount, params.vote⟩
        ((s.contract.threshold + 1) % 2^32) := by
  unfold PrisonerDilemma.play
  rw [if_neg hv, if_pos h]

theorem play_pass (s : SysState) (params : Params)
    (hv : ¬ (params.vote ≠ 1 ∧ params.vote ≠ 2))
    (hadm : ¬ (random params > s.contract.threshold)) :
    PrisonerDilemma.play s params =
      (match firstIdxWith (fun m => decide (m.p1.sender ≠ params.sender))
          s.contract.waiting with
       | none => parkPlayer s
           ⟨params.sender, params.transaction_id, params.amount, params.vote⟩
           (if s.contract.threshold > 0 then s.contract.threshold - 1
            else s.contract.threshold)
       | some index => pairWith s
           ⟨params.sender, params.transaction_id, params.amount, params.vote⟩
           (if s.contract.threshold > 0 then s.contract.threshold - 1
            else s.contract.threshold) index) := by
  unfold PrisonerDilemma.play
  rw [if_neg hv, if_neg hadm]

theorem parkPlayer_fst (s : SysState) (p : Player) (t' : ℕ) :
    (parkPlayer s p t').1 = .parked (generate_id s.counter).2 := rfl

theorem parkPlayer_threshold (s : SysState) (p : Player) (t' : ℕ) :
    (parkPlayer s p t').2.contract.threshold = t' := rfl

theorem parkPlayer_balances (s : SysState) (p : Player) (t' : ℕ) :
    (parkPlayer s p t').2.contract.balances = s.contract.balances := rfl

theorem parkPlayer_history (s : SysState) (p : Player) (t' : ℕ) :
    (parkPlayer s p t').2.contract.history = s.contract.history := rfl

theorem pairWith_threshold (s : SysState) (p : Player) (t' : ℕ) (i : ℕ) :
    (pairWith s p t' i).2.contract.threshold = t' := by
  show (prune_old_history _).threshold = t'
  rw [prune_threshold]

/-! ## Claim C10 -/

/-- Claim C10: `init` ignores the host parameters and always produces the
same initial state: every balance 0, pot 0, threshold 50, empty waiting
pool, empty history. -/
theorem c10_init (params : Params) :
    (∀ k, (PrisonerDilemma.init params).balances k = 0)
    ∧ (PrisonerDilemma.init params).pot = 0
    ∧ (PrisonerDilemma.init params).threshold = 50
    ∧ (PrisonerDilemma.init params).waiting = []
    ∧ (PrisonerDilemma.init params).history = []
    ∧ ∀ params', PrisonerDilemma.init params = PrisonerDilemma.init params' :=
  ⟨fun _ => rfl, rfl, rfl, rfl, rfl, fun _ => rfl⟩

/-! ## Claim C7 -/

/-- Claim C7: `cash_out` errors with `ZeroBalance` exactly when the caller's
balance is zero (or absent), in that case emitting no transfer and leaving
the state unchanged; otherwise it emits exactly one transfer request of the
full balance addressed to the caller, followed by zeroing that balance (in
that order), and changes nothing else. -/
theorem c7_cash_out (c : PrisonerDilemma) (sender : List ℕ) :
    (c.balances sender = 0 →
      PrisonerDilemma.cash_out c sender = (.zeroBalance, [], c))
    ∧ (c.balances sender ≠ 0 →
      ∃ c', PrisonerDilemma.cash_out c sender
          = (.ok, [.transferReq sender (c.balances sender), .balanceZeroed sender], c')
        ∧ c'.balances sender = 0
        ∧ (∀ k, k ≠ sender → c'.balances k = c.balances k)
        ∧ c'.pot = c.pot ∧ c'.threshold = c.threshold
        ∧ c'.waiting = c.waiting ∧ c'.history = c.history) := by
  constructor
  · intro h
    unfold PrisonerDilemma.cash_out
    rw [if_pos h]
  · intro h
    refine ⟨{ c with balances := fun k => if k = sender then 0 else c.balances k },
      ?_, by simp, fun k hk => by simp [hk], rfl, rfl, rfl, rfl⟩
    unfold PrisonerDilemma.cash_out
    rw [if_neg h]

/-- Witness for `c7_cash_out` on the zero-balance side. -/
theorem c7_cash_out_witness :
    (PrisonerDilemma.init ⟨[], [], [], 0, 0⟩).balances [] = 0
    ∧ PrisonerDilemma.cash_out (PrisonerDilemma.init ⟨[], [], [], 0, 0⟩) []
        = (.zeroBalance, [], PrisonerDilemma.init ⟨[], [], [], 0, 0⟩) :=
  ⟨rfl, (c7_cash_out (PrisonerDilemma.init ⟨[], [], [], 0, 0⟩) []).1 rfl⟩

/-! ## Claim C3 -/

/-- Claim C3, counterexample: from the initial state (threshold 50, empty
waiting pool), a play whose admission draw is `0 ≤ 50` passes the admission
test, finds no opponent, and is parked in the waiting pool — yet the
threshold moves to `49`, not `51`: a parked play whose admission test passed
decrements the threshold, so "every parked play increases the threshold" is
false. -/
theorem c3_threshold_cex :
    (PrisonerDilemma.play ⟨PrisonerDilemma.init ⟨[], [], [], 0, 0⟩, 0⟩
        ⟨[1], [], [], 0, 1⟩).1 = .parked "1"
    ∧ (PrisonerDilemma.play ⟨PrisonerDilemma.init ⟨[], [], [], 0, 0⟩, 0⟩
        ⟨[1], [], [], 0, 1⟩).2.contract.threshold = 49
    ∧ (PrisonerDilemma.play ⟨PrisonerDilemma.init ⟨[], [], [], 0, 0⟩, 0⟩
        ⟨[1], [], [], 0, 1⟩).2.contract.threshold ≠ 50 + 1 := by
  refine ⟨?_, ?_, ?_⟩ <;> decide

/-- Claim C3 (amended): the admission threshold increases by exactly 1 when
the play is parked because it failed the admission test
(`random > threshold`), and decreases by exactly 1 (floored at 0) whenever
the admission test passes — both when the pairing succeeds and when the play
is then parked because no compatible opponent is waiting.  Thus not every
parked play increases the threshold. -/
theorem c3_threshold_amended (s : SysState) (params : Params)
    (hv : params.vote = 1 ∨ params.vote = 2)
    (ht : s.contract.threshold < 2^32 - 1) :
    (random params > s.contract.threshold →
      (∃ id, (PrisonerDilemma.play s params).1 = .parked id)
      ∧ (PrisonerDilemma.play s params).2.contract.threshold
          = s.contract.threshold + 1)
    ∧ (¬ (random params > s.contract.threshold) →
      (PrisonerDilemma.play s params).2.contract.threshold
          = s.contract.threshold - 1) := by
  have hv' : ¬ (params.vote ≠ 1 ∧ params.vote ≠ 2) := by
    rcases hv with h | h <;> simp [h]
  constructor
  · intro h
    rw [play_admission_parked s params hv' h]
    refine ⟨⟨(generate_id s.counter).2, parkPlayer_fst _ _ _⟩, ?_⟩
    rw [parkPlayer_threshold]
    omega
  · intro h
    rw [play_pass s params hv' h]
    rcases hidx : firstIdxWith (fun m => decide (m.p1.sender ≠ params.sender))
        s.contract.waiting with _ | i
    · simp only [hidx]
      rw [parkPlayer_threshold]
      split_ifs <;> omega
    · simp only [hidx]
      rw [pairWith_threshold]
      split_ifs <;> omega

/-- Witness for `c3_threshold_amended`: a concrete play that passes the
admission test and is parked, with the threshold dropping from 50 to 49. -/
theorem c3_threshold_amended_witness :
    ((1:ℕ) = 1 ∨ (1:ℕ) = 2)
    ∧ (⟨PrisonerDilemma.init ⟨[], [], [], 0, 0⟩, 0⟩ : SysState).contract.threshold
        < 2^32 - 1
    ∧ ¬ (random ⟨[1], [], [], 0, 1⟩
        > (⟨PrisonerDilemma.init ⟨[], [], [], 0, 0⟩, 0⟩ : SysState).contract.threshold)
    ∧ (PrisonerDilemma.play ⟨PrisonerDilemma.init ⟨[], [], [], 0, 0⟩, 0⟩
        ⟨[1], [], [], 0, 1⟩).2.contract.threshold
      = (⟨PrisonerDilemma.init ⟨[], [], [], 0, 0⟩, 0⟩ : SysState).contract.threshold - 1 :=
  ⟨Or.inl rfl, by decide, by decide,
   (c3_threshold_amended ⟨PrisonerDilemma.init ⟨[], [], [], 0, 0⟩, 0⟩
      ⟨[1], [], [], 0, 1⟩ (Or.inl rfl) (by decide)).2 (by decide)⟩

/-! ## Characterization of `firstIdxWith` (`Iterator::position`) -/

theorem firstIdxWith_none {α : Type} {p : α → Bool} :
    ∀ {l : List α}, firstIdxWith p l = none → ∀ a ∈ l, p a = false := by
  intro l
  induction l with
  | nil => intro _ a ha; cases ha
  | cons a l ih =>
    intro h b hb
    unfold firstIdxWith at h
    by_cases hp : p a
    · rw [if_pos hp] at h; cases h
    · rw [if_neg hp] at h
      rcases List.mem_cons.1 hb with rfl | hb'
      · exact Bool.eq_false_iff.2 hp
      · exact ih (Option.map_eq_none.1 h) b hb'

theorem firstIdxWith_some {α : Type} [Inhabited α] {p : α → Bool} :
    ∀ {l : List α} {i : ℕ}, firstIdxWith p l = some i →
      i < l.length ∧ p (l.getD i default) = true
        ∧ ∀ j < i, p (l.getD j default) = false := by
  intro l
  induction l with
  | nil => intro i h; cases h
  | cons a l ih =>
    intro i h
    unfold firstIdxWith at h
    by_cases hp : p a
    · rw [if_pos hp] at h
      cases h
      exact ⟨by simp, by simpa using hp, fun j hj => by omega⟩
    · rw [if_neg hp] at h
      rcases Option.map_eq_some'.1 h with ⟨i', hi', rfl⟩
      obtain ⟨hlen, hpi, hprev⟩ := ih hi'
      refine ⟨by simpa using hlen, by simpa using hpi, ?_⟩
      intro j hj
      cases j with
      | zero => simpa using Bool.eq_false_iff.2 hp
      | succ j' =>
        have := hprev j' (by omega)
        simpa using this

/-! ## Claim C5 -/

/-- Facts about `Match::play` that hold in every vote case: the id and
player one are preserved and the incoming player is installed as player
two. -/
theorem Match_play_id (m : Match) (p2 : Player) (pot : ℕ) :
    (Match.play m p2 pot).id = m.id := by
  unfold Match.play
  split_ifs <;> rfl

theorem Match_play_p1 (m : Match) (p2 : Player) (pot : ℕ) :
    (Match.play m p2 pot).p1 = m.p1 := by
  unfold Match.play
  split_ifs <;> rfl

theorem Match_play_p2 (m : Match) (p2 : Player) (pot : ℕ) :
    (Match.play m p2 pot).p2 = some p2 := by
  unfold Match.play
  split_ifs <;> rfl

/-- Claim C5: self-pairing never occurs.  When the admission test passes,
the matchmaker selects the first waiting entry (in insertion order) whose
player-one sender differs from the incoming sender — every earlier entry has
the same sender, and the selected entry's sender differs — and if every
waiting entry has the incoming sender's identity, the play is parked
instead. -/
theorem c5_no_self_pairing (s : SysState) (params : Params)
    (hv : params.vote = 1 ∨ params.vote = 2)
    (hadm : ¬ (random params > s.contract.threshold)) :
    ((∀ mm ∈ s.contract.waiting, mm.p1.sender = params.sender) →
      ∃ id, (PrisonerDilemma.play s params).1 = .parked id)
    ∧ ((∃ mm ∈ s.contract.waiting, mm.p1.sender ≠ params.sender) →
      ∃ i, i < s.contract.waiting.length
        ∧ (s.contract.waiting.getD i default).p1.sender ≠ params.sender
        ∧ (∀ j < i, (s.contract.waiting.getD j default).p1.sender = params.sender)
        ∧ (∃ p1p p2p, (PrisonerDilemma.play s params).1
            = .matched (s.contract.waiting.getD i default).id
                ((s.contract.waiting.getD i default).p1.sender) p1p
                params.sender p2p)
        ∧ (PrisonerDilemma.play s params).2.contract.waiting
            = s.contract.waiting.eraseIdx i) := by
  have hv' : ¬ (params.vote ≠ 1 ∧ params.vote ≠ 2) := by
    rcases hv with h | h <;> simp [h]
  rw [play_pass s params hv' hadm]
  constructor
  · intro hall
    rcases hidx : firstIdxWith (fun m => decide (m.p1.sender ≠ params.sender))
        s.contract.waiting with _ | i
    · simp only [hidx]
      exact ⟨(generate_id s.counter).2, parkPlayer_fst _ _ _⟩
    · exfalso
      obtain ⟨hlen, hpi, -⟩ := firstIdxWith_some hidx
      have hmem : s.contract.waiting.getD i default ∈ s.contract.waiting := by
        rw [List.getD_eq_getElem?_getD, List.getElem?_eq_getElem hlen]
        exact List.getElem_mem hlen
      have hpi' : (s.contract.waiting.getD i default).p1.sender ≠ params.sender := by
        simpa using hpi
      exact hpi' (hall _ hmem)
  · intro ⟨mm, hmm, hne⟩
    rcases hidx : firstIdxWith (fun m => decide (m.p1.sender ≠ params.sender))
        s.contract.waiting with _ | i
    · exfalso
      have := firstIdxWith_none hidx mm hmm
      simp [hne] at this
    · obtain ⟨hlen, hpi, hprev⟩ := firstIdxWith_some hidx
      simp only [hidx]
      refine ⟨i, hlen, by simpa using hpi, ?_, ?_, ?_⟩
      · intro j hj
        have := hprev j hj
        simpa using this
      · refine ⟨(Match.play (s.contract.waiting.getD i default)
            ⟨params.sender, params.transaction_id, params.amount, params.vote⟩
            s.contract.pot).p1_payout,
          (Match.play (s.contract.waiting.getD i default)
            ⟨params.sender, params.transaction_id, params.amount, params.vote⟩
            s.contract.pot).p2_payout, ?_⟩
        show PlayOut.matched
            (Match.play (s.contract.waiting.getD i default) _ s.contract.pot).id
            (Match.play (s.contract.waiting.getD i default) _ s.contract.pot).p1.sender
            _ (((Match.play (s.contract.waiting.getD i default) _
                s.contract.pot).p2.getD default).sender) _
          = _
        rw [Match_play_id, Match_play_p1, Match_play_p2]
        rfl
      · show (prune_old_history _).waiting = _
        rw [prune_waiting]

/-- A state whose only waiting entry is owned by sender `[1]`. -/
def selfWaitState : SysState :=
  ⟨{ balances := fun _ => 0
     pot := 0
     threshold := 50
     waiting := [Match.new "1" ⟨[1], [], 3, 1⟩]
     history := [] }, 1⟩

/-- Witness for `c5_no_self_pairing`: with a single waiting entry owned by
the incoming sender, the play is parked, not self-paired. -/
theorem c5_no_self_pairing_witness :
    ((1:ℕ) = 1 ∨ (1:ℕ) = 2)
    ∧ ¬ (random ⟨[1], [], [], 0, 1⟩ > selfWaitState.contract.threshold)
    ∧ (∀ mm ∈ selfWaitState.contract.waiting, mm.p1.sender = [1])
    ∧ ∃ id, (PrisonerDilemma.play selfWaitState ⟨[1], [], [], 0, 1⟩).1
        = .parked id :=
  ⟨Or.inl rfl, by decide, by decide,
   (c5_no_self_pairing selfWaitState ⟨[1], [], [], 0, 1⟩ (Or.inl rfl)
      (by decide)).1 (by decide)⟩

/-! ## Claim C6 -/

/-- `result` routing, not-found case (shared with claim C4's eviction
conjunct). -/
theorem result_notFound_of (c : PrisonerDilemma) (id : String)
    (hw : ∀ mm ∈ c.waiting, mm.id ≠ id) (hh : ∀ mm ∈ c.history, mm.id ≠ id) :
    (PrisonerDilemma.result c id).1 = .notFound := by
  have hw' : c.waiting.find? (fun m => decide (m.id = id)) = none :=
    List.find?_eq_none.2 fun mm hmm => by simpa using hw mm hmm
  have hh' : c.history.find? (fun m => decide (m.id = id)) = none :=
    List.find?_eq_none.2 fun mm hmm => by simpa using hh mm hmm
  unfold PrisonerDilemma.result
  rw [hw', hh']
  simp

/-- Claim C6: `result` checks the waiting pool first (returning the
still-waiting error, never a completed record, for an id parked there);
otherwise it returns the stored payout detail of the first history entry
with that id; otherwise the not-found error.  It performs no state
mutation. -/
theorem c6_result_routing (c : PrisonerDilemma) (id : String) :
    ((∃ mm ∈ c.waiting, mm.id = id) →
      (PrisonerDilemma.result c id).1 = .stillWaiting)
    ∧ ((∀ mm ∈ c.waiting, mm.id ≠ id) → (∃ mm ∈ c.history, mm.id = id) →
        ∃ found ∈ c.history, found.id = id
          ∧ (PrisonerDilemma.result c id).1
              = .completed found.p1.sender found.p1_payout found.p2 found.p2_payout)
    ∧ ((∀ mm ∈ c.waiting, mm.id ≠ id) → (∀ mm ∈ c.history, mm.id ≠ id) →
        (PrisonerDilemma.result c id).1 = .notFound)
    ∧ (PrisonerDilemma.result c id).2 = c := by
  refine ⟨?_, ?_, result_notFound_of c id, ?_⟩
  · intro ⟨mm, hmm, hid⟩
    rcases hfind : c.waiting.find? (fun m => decide (m.id = id)) with _ | found
    · exact absurd hid (by simpa using List.find?_eq_none.1 hfind mm hmm)
    · unfold PrisonerDilemma.result
      rw [hfind]
      simp
  · intro hw ⟨mm, hmm, hid⟩
    have hw' : c.waiting.find? (fun m => decide (m.id = id)) = none :=
      List.find?_eq_none.2 fun m hm => by simpa using hw m hm
    rcases hfind : c.history.find? (fun m => decide (m.id = id)) with _ | found
    · exact absurd hid (by simpa using List.find?_eq_none.1 hfind mm hmm)
    · refine ⟨found, List.mem_of_find?_eq_some hfind,
        by simpa using List.find?_some hfind, ?_⟩
      unfold PrisonerDilemma.result
      rw [hw', hfind]
      simp
  · unfold PrisonerDilemma.result
    split
    · rfl
    · split <;> rfl

/-- A contract state with one waiting match carrying id "1". -/
def c6state : PrisonerDilemma :=
  { balances := fun _ => 0
    pot := 0
    threshold := 50
    waiting := [Match.new "1" ⟨[1], [], 3, 1⟩]
    history := [] }

/-- Witness for `c6_result_routing`: an id present in the waiting pool
yields the still-waiting outcome. -/
theorem c6_result_routing_witness :
    (∃ mm ∈ c6state.waiting, mm.id = "1")
    ∧ (PrisonerDilemma.result c6state "1").1 = .stillWaiting :=
  ⟨by decide, (c6_result_routing c6state "1").1 (by decide)⟩

/-! ## Claim C4 -/

theorem eraseIdx_zero_eq_tail {α : Type} (l : List α) : l.eraseIdx 0 = l.tail := by
  cases l <;> rfl

theorem append_singleton_eraseIdx_zero {α : Type} (l : List α) (x : α)
    (h : l ≠ []) : (l ++ [x]).eraseIdx 0 = l.tail ++ [x] := by
  cases l with
  | nil => exact absurd rfl h
  | cons a t => rfl

theorem cash_out_state_history (c : PrisonerDilemma) (sender : List ℕ) :
    (PrisonerDilemma.cash_out c sender).2.2.history = c.history := by
  unfold PrisonerDilemma.cash_out
  by_cases h : c.balances sender = 0
  · rw [if_pos h]
  · rw [if_neg h]

theorem pairWith_history (s : SysState) (p : Player) (t' : ℕ) (i : ℕ) :
    (pairWith s p t' i).2.contract.history =
      if (s.contract.history
            ++ [Match.play (s.contract.waiting.getD i default) p s.contract.pot]).length
          > MAX_HISTORY_CAPACITY
      then (s.contract.history
            ++ [Match.play (s.contract.waiting.getD i default) p s.contract.pot]).eraseIdx 0
      else s.contract.history
            ++ [Match.play (s.contract.waiting.getD i default) p s.contract.pot] := by
  show (prune_old_history _).history = _
  unfold prune_old_history
  by_cases h : (s.contract.history
      ++ [Match.play (s.contract.waiting.getD i default) p s.contract.pot]).length
      > MAX_HISTORY_CAPACITY
  · rw [if_pos h, if_pos h]
  · rw [if_neg h, if_neg h]

theorem prune_history_le (p : PrisonerDilemma) (hp : p.history.length ≤ 101) :
    (prune_old_history p).history.length ≤ 100 := by
  unfold prune_old_history MAX_HISTORY_CAPACITY
  split
  next hgt =>
    show (p.history.eraseIdx 0).length ≤ 100
    rw [eraseIdx_zero_eq_tail, List.length_tail]
    omega
  next hle =>
    show p.history.length ≤ 100
    omega

/-- Every `play` call keeps the history at or below 100 entries. -/
theorem play_history_le (s : SysState) (params : Params)
    (h : s.contract.history.length ≤ 100) :
    (PrisonerDilemma.play s params).2.contract.history.length ≤ 100 := by
  by_cases hv : params.vote ≠ 1 ∧ params.vote ≠ 2
  · rw [play_invalid s params hv]
    exact h
  · by_cases hadm : random params > s.contract.threshold
    · rw [play_admission_parked s params hv hadm, parkPlayer_history]
      exact h
    · rw [play_pass s params hv hadm]
      rcases hidx : firstIdxWith (fun m => decide (m.p1.sender ≠ params.sender))
          s.contract.waiting with _ | i
      · simp only [hidx]
        rw [parkPlayer_history]
        exact h
      · simp only [hidx]
        show (prune_old_history _).history.length ≤ 100
        apply prune_history_le
        simp only [List.length_append, List.length_cons, List.length_nil]
        omega

/-- Claim C4: the history store never exceeds 100 completed matches in any
reachable state; completing a match with a full history evicts exactly the
entry at index 0; an id absent from both the waiting pool and the (pruned)
history — in particular an evicted id — is no longer retrievable, yielding
the not-found error; and when the history ids are the decimal renderings of
a strictly increasing number sequence, the index-0 entry carries the
smallest of them. -/
theorem c4_history_bound :
    (∀ s, Reachable s → s.contract.history.length ≤ 100)
    ∧ (∀ (s : SysState) (params : Params), s.contract.history.length = 100 →
        ∀ id p1s p1p p2s p2p,
          (PrisonerDilemma.play s params).1 = .matched id p1s p1p p2s p2p →
          ∃ mm, mm.id = id
            ∧ (PrisonerDilemma.play s params).2.contract.history
                = s.contract.history.tail ++ [mm])
    ∧ (∀ (c : PrisonerDilemma) (id : String),
        (∀ mm ∈ c.waiting, mm.id ≠ id) → (∀ mm ∈ c.history, mm.id ≠ id) →
        (PrisonerDilemma.result c id).1 = .notFound)
    ∧ (∀ (c : PrisonerDilemma) (l : List ℕ),
        c.history.map Match.id = l.map (fun n => toString n) →
        l.Sorted (· < ·) → l ≠ [] →
        (∀ n ∈ l, l.headI ≤ n) ∧ (c.history.headI).id = toString l.headI) := by
  refine ⟨?_, ?_, ?_, ?_⟩
  · intro s hr
    induction hr with
    | start params => simp [PrisonerDilemma.init]
    | step_play s params _ ih => exact play_history_le s params ih
    | step_cash_out s sender _ ih =>
      show (PrisonerDilemma.cash_out s.contract sender).2.2.history.length ≤ 100
      rw [cash_out_state_history]
      exact ih
  · intro s params hlen id p1s p1p p2s p2p hmatched
    by_cases hv : params.vote ≠ 1 ∧ params.vote ≠ 2
    · rw [play_invalid s params hv] at hmatched
      cases hmatched
    · by_cases hadm : random params > s.contract.threshold
      · rw [play_admission_parked s params hv hadm, parkPlayer_fst] at hmatched
        cases hmatched
      · rw [play_pass s params hv hadm] at hmatched ⊢
        rcases hidx : firstIdxWith (fun m => decide (m.p1.sender ≠ params.sender))
            s.contract.waiting with _ | i
        · rw [hidx] at hmatched ⊢
          rw [parkPlayer_fst] at hmatched
          cases hmatched
        · rw [hidx] at hmatched ⊢
          have hfst : (pairWith s
              ⟨params.sender, params.transaction_id, params.amount, params.vote⟩
              (if s.contract.threshold > 0 then s.contract.threshold - 1
               else s.contract.threshold) i).1
            = .matched (Match.play (s.contract.waiting.getD i default)
                  ⟨params.sender, params.transaction_id, params.amount, params.vote⟩
                  s.contract.pot).id
                (Match.play (s.contract.waiting.getD i default)
                  ⟨params.sender, params.transaction_id, params.amount, params.vote⟩
                  s.contract.pot).p1.sender
                (Match.play (s.contract.waiting.getD i default)
                  ⟨params.sender, params.transaction_id, params.amount, params.vote⟩
                  s.contract.pot).p1_payout
                (((Match.play (s.contract.waiting.getD i default)
                  ⟨params.sender, params.transaction_id, params.amount, params.vote⟩
                  s.contract.pot).p2.getD default).sender)
                (Match.play (s.contract.waiting.getD i default)
                  ⟨params.sender, params.transaction_id, params.amount, params.vote⟩
                  s.contract.pot).p2_payout := rfl
          rw [hfst] at hmatched
          injection hmatched with hid hrest
          refine ⟨Match.play (s.contract.waiting.getD i default)
              ⟨params.sender, params.transaction_id, params.amount, params.vote⟩
              s.contract.pot, hid, ?_⟩
          have hcond : (s.contract.history
              ++ [Match.play (s.contract.waiting.getD i default)
                  ⟨params.sender, params.transaction_id, params.amount, params.vote⟩
                  s.contract.pot]).length > MAX_HISTORY_CAPACITY := by
            simp only [List.length_append, List.length_cons, List.length_nil]
            unfold MAX_HISTORY_CAPACITY
            omega
          rw [pairWith_history, if_pos hcond]
          apply append_singleton_eraseIdx_zero
          intro hnil
          rw [hnil] at hlen
          simp at hlen
  · exact result_notFound_of
  · intro c l hmap hsort hne
    constructor
    · intro n hn
      cases l with
      | nil => exact absurd rfl hne
      | cons a rest =>
        have hcons := List.sorted_cons.1 hsort
        rcases List.mem_cons.1 hn with rfl | h
        · exact le_rfl
        · exact le_of_lt (hcons.1 n h)
    · cases l with
      | nil => exact absurd rfl hne
      | cons a rest =>
        cases hh : c.history with
        | nil =>
          rw [hh] at hmap
          simp at hmap
        | cons h0 htl =>
          rw [hh] at hmap
          simp only [List.map_cons, List.cons.injEq] at hmap
          exact hmap.1

/-- Witness for `c4_history_bound`: the initial state is reachable and its
history (empty) is within the capacity bound. -/
theorem c4_history_bound_witness :
    Reachable ⟨PrisonerDilemma.init ⟨[], [], [], 0, 0⟩, 0⟩
    ∧ (⟨PrisonerDilemma.init ⟨[], [], [], 0, 0⟩, 0⟩
        : SysState).contract.history.length ≤ 100 :=
  ⟨Reachable.start _, c4_history_bound.1 _ (Reachable.start _)⟩

/-! ## Claim C8 -/

/-- Claim C8: the admission randomness seed is the 16-byte array whose
position `i` holds the 8-bit wraparound sum of the round-id and
transaction-id bytes at `i` (0 beyond the shorter input); the derivation is
total for all byte values; and the draw is a deterministic function of the
two identifiers with values in `[0, 100)`. -/
theorem c8_random_seed :
    (∀ r t : List ℕ, (mkSeed r t).length = 16)
    ∧ (∀ r t : List ℕ, ∀ i, i < 16 →
        (mkSeed r t).getD i 0
          = if i < min r.length t.length
            then (r.getD i 0 + t.getD i 0) % 256 else 0)
    ∧ (∀ p q : Params, p.round_id = q.round_id →
        p.transaction_id = q.transaction_id → random p = random q)
    ∧ (∀ p : Params, random p < 100) := by
  refine ⟨?_, ?_, ?_, ?_⟩
  · intro r t
    simp [mkSeed]
  · intro r t i hi
    have hm : (mkSeed r t).getD i 0 = (seedSums r t).getD i 0 := by
      unfold mkSeed
      rw [List.getD_eq_getElem?_getD, List.getElem?_map,
          List.getElem?_range hi]
      rfl
    rw [hm]
    have hlen : (seedSums r t).length = min r.length t.length := by
      simp [seedSums]
    by_cases hin : i < min r.length t.length
    · rw [if_pos hin]
      have hiz : i < (r.zip t).length := by simp [List.length_zip]; omega
      unfold seedSums
      rw [List.getD_eq_getElem?_getD, List.getElem?_map,
          List.getElem?_eq_getElem hiz]
      simp only [Option.map_some', Option.getD_some]
      rw [List.getElem_zip]
      have hir : i < r.length := by omega
      have hit : i < t.length := by omega
      rw [List.getD_eq_getElem?_getD, List.getElem?_eq_getElem hir,
          List.getD_eq_getElem?_getD, List.getElem?_eq_getElem hit]
      rfl
    · rw [if_neg hin]
      apply List.getD_eq_default
      omega
  · intro p q h1 h2
    unfold random
    rw [h1, h2]
  · intro p
    unfold random prgDraw
    exact Nat.mod_lt _ (by norm_num)

/-- Witness for `c8_random_seed` at concrete identifiers. -/
theorem c8_random_seed_witness :
    ((0:ℕ) < 16)
    ∧ (mkSeed [200, 2] [100, 4]).getD 0 0
        = (if (0:ℕ) < min ([200, 2] : List ℕ).length ([100, 4] : List ℕ).length
           then (([200, 2] : List ℕ).getD 0 0 + ([100, 4] : List ℕ).getD 0 0) % 256
           else 0)
    ∧ random ⟨[9], [6], [7], 1, 1⟩ = random ⟨[8], [6], [7], 2, 2⟩
    ∧ random ⟨[9], [6], [7], 1, 1⟩ < 100 :=
  ⟨by norm_num,
   c8_random_seed.2.1 [200, 2] [100, 4] 0 (by norm_num),
   c8_random_seed.2.2.1 ⟨[9], [6], [7], 1, 1⟩ ⟨[8], [6], [7], 2, 2⟩ rfl rfl,
   c8_random_seed.2.2.2 ⟨[9], [6], [7], 1, 1⟩⟩

/-! ## Claim C9 -/

theorem update_balance_eq_add (balances : List ℕ → ℕ) (sender : List ℕ)
    (payout : ℕ) (h : balances sender + payout < 2^63) :
    update_balance balances sender (toI64 payout)
      = fun k => if k = sender then balances sender + payout else balances k := by
  funext k
  simp only [update_balance, addI64]
  rw [toI64_of_lt (show payout < 2^63 by omega),
      toI64_of_lt (show balances sender < 2^63 by omega),
      i64wrap_eq_of (by omega) (by omega)]
  rw [if_neg (show ¬((balances sender : ℤ) + (payout : ℤ) < 0) by omega)]
  by_cases hk : k = sender
  · rw [if_pos hk, if_pos hk]
    omega
  · rw [if_neg hk, if_neg hk]

theorem pairWith_balances (s : SysState) (p : Player) (t' : ℕ) (i : ℕ) :
    (pairWith s p t' i).2.contract.balances =
      update_balance
        (update_balance s.contract.balances
          (((Match.play (s.contract.waiting.getD i default) p s.contract.pot).p2.getD
              default).sender)
          (toI64 (Match.play (s.contract.waiting.getD i default) p
              s.contract.pot).p2_payout))
        ((Match.play (s.contract.waiting.getD i default) p s.contract.pot).p1.sender)
        (toI64 (Match.play (s.contract.waiting.getD i default) p
            s.contract.pot).p1_payout) := by
  show (prune_old_history _).balances = _
  rw [prune_balances]

/-- Claim C9 (amended): provided the payoff arithmetic stays below `2^63`
(no payout is reinterpreted as a negative `i64`), a `play` call never
decreases any participant's balance; and the only balance-lowering
operation, `cash_out`, sets the caller's balance to 0. -/
theorem c9_balance_amended (s : SysState) (params : Params)
    (hB : ∀ mm ∈ s.contract.waiting,
      (mm.p1.vote = 1 ∨ mm.p1.vote = 2)
      ∧ s.contract.balances mm.p1.sender + mm.p1.stake + params.amount
          + potDividend015 s.contract.pot < 2^63
      ∧ s.contract.balances params.sender + mm.p1.stake + params.amount
          + potDividend015 s.contract.pot < 2^63
      ∧ s.contract.balances mm.p1.sender + mm.p1.stake
          + potDividend01 s.contract.pot < 2^63
      ∧ s.contract.balances params.sender + params.amount
          + potDividend01 s.contract.pot < 2^63) :
    (∀ k, s.contract.balances k ≤ (PrisonerDilemma.play s params).2.contract.balances k)
    ∧ (∀ (c : PrisonerDilemma) (who : List ℕ), c.balances who ≠ 0 →
        (PrisonerDilemma.cash_out c who).2.2.balances who = 0) := by
  constructor
  · intro k
    by_cases hv : params.vote ≠ 1 ∧ params.vote ≠ 2
    · rw [play_invalid s params hv]
    · by_cases hadm : random params > s.contract.threshold
      · rw [play_admission_parked s params hv hadm, parkPlayer_balances]
      · rw [play_pass s params hv hadm]
        rcases hidx : firstIdxWith (fun m => decide (m.p1.sender ≠ params.sender))
            s.contract.waiting with _ | i
        · simp only [hidx]
          rw [parkPlayer_balances]
        · simp only [hidx]
          obtain ⟨hlen, hpi, -⟩ := firstIdxWith_some hidx
          have hmem : s.contract.waiting.getD i default ∈ s.contract.waiting := by
            rw [List.getD_eq_getElem?_getD, List.getElem?_eq_getElem hlen]
            exact List.getElem_mem hlen
          have hne : (s.contract.waiting.getD i default).p1.sender ≠ params.sender := by
            simpa using hpi
          obtain ⟨hvote, hb1, hb2, hb3, hb4⟩ := hB _ hmem
          have hpv : params.vote = 1 ∨ params.vote = 2 := by
            push_neg at hv
            by_cases h1 : params.vote = 1
            · exact Or.inl h1
            · exact Or.inr (hv h1)
          rw [pairWith_balances]
          rcases hvote with hm1 | hm1 <;> rcases hpv with hp1 | hp1
          · -- cooperate / cooperate
            rw [Match_play_cc _ _ _ hm1 hp1]
            simp only [Option.getD_some]
            rw [wrap64_eq_of (by omega), wrap64_eq_of (by omega)]
            rw [update_balance_eq_add s.contract.balances params.sender
                (params.amount + potDividend01 s.contract.pot) (by omega)]
            rw [update_balance_eq_add _ _ _ (by simp only [if_neg hne]; omega)]
            beta_reduce
            rw [if_neg hne]
            by_cases hk1 : k = (s.contract.waiting.getD i default).p1.sender
            · rw [if_pos hk1, hk1]
              omega
            · rw [if_neg hk1]
              by_cases hk2 : k = params.sender
              · rw [if_pos hk2, hk2]
                omega
              · rw [if_neg hk2]
          · -- cooperate / defect
            rw [Match_play_cd _ _ _ hm1 hp1]
            simp only [Option.getD_some]
            rw [wrap64_eq_of (show params.amount
                  + (s.contract.waiting.getD i default).p1.stake < 2^64 by omega),
                wrap64_eq_of (by omega)]
            rw [update_balance_eq_add s.contract.balances params.sender
                (params.amount + (s.contract.waiting.getD i default).p1.stake
                  + potDividend015 s.contract.pot) (by omega)]
            rw [update_balance_eq_add _ _ _ (by simp only [if_neg hne]; omega)]
            beta_reduce
            rw [if_neg hne]
            by_cases hk1 : k = (s.contract.waiting.getD i default).p1.sender
            · rw [if_pos hk1, hk1]
              omega
            · rw [if_neg hk1]
              by_cases hk2 : k = params.sender
              · rw [if_pos hk2, hk2]
                omega
              · rw [if_neg hk2]
          · -- defect / cooperate
            rw [Match_play_dc _ _ _ hm1 hp1]
            simp only [Option.getD_some]
            rw [wrap64_eq_of (show params.amount
                  + (s.contract.waiting.getD i default).p1.stake < 2^64 by omega),
                wrap64_eq_of (by omega)]
            rw [update_balance_eq_add s.contract.balances params.sender 0 (by omega)]
            rw [update_balance_eq_add _ _ _ (by simp only [if_neg hne]; omega)]
            beta_reduce
            rw [if_neg hne]
            by_cases hk1 : k = (s.contract.waiting.getD i default).p1.sender
            · rw [if_pos hk1, hk1]
              omega
            · rw [if_neg hk1]
              by_cases hk2 : k = params.sender
              · rw [if_pos hk2, hk2]
                omega
              · rw [if_neg hk2]
          · -- defect / defect
            rw [Match_play_dd _ _ _ hm1 hp1]
            simp only [Option.getD_some]
            rw [update_balance_eq_add s.contract.balances params.sender 0 (by omega)]
            rw [update_balance_eq_add _ _ _ (by simp only [if_neg hne]; omega)]
            beta_reduce
            rw [if_neg hne]
            by_cases hk1 : k = (s.contract.waiting.getD i default).p1.sender
            · rw [if_pos hk1, hk1]
              omega
            · rw [if_neg hk1]
              by_cases hk2 : k = params.sender
              · rw [if_pos hk2, hk2]
                omega
              · rw [if_neg hk2]
  · intro c who h
    unfold PrisonerDilemma.cash_out
    rw [if_neg h]
    simp

/-- A state with balance 5 for player `[0]`, whose waiting match stakes
`2^63` on defect. -/
def c9state : SysState :=
  ⟨{ balances := fun k => if k = [0] then 5 else 0
     pot := 0
     threshold := 50
     waiting := [Match.new "7" ⟨[0], [], 2^63, 2⟩]
     history := [] }, 7⟩

/-- Claim C9, counterexample: pairing the waiting defector `[0]` (stake
`2^63`) against a cooperating player yields the `u64` payout `2^63`, whose
`as i64` cast is the negative delta `-2^63`; applying it drops `[0]`'s
balance from 5 to 0 (clamped), so a successful play can decrease a
participant's balance. -/
theorem c9_balance_cex :
    c9state.contract.balances [0] = 5
    ∧ (PrisonerDilemma.play c9state ⟨[1], [], [], 0, 1⟩).2.contract.balances [0] = 0
    ∧ (PrisonerDilemma.play c9state ⟨[1], [], [], 0, 1⟩).2.contract.balances [0]
        < c9state.contract.balances [0] := by
  have hm : Match.play (c9state.contract.waiting.getD 0 default)
      ⟨[1], [], 0, 1⟩ c9state.contract.pot
      = { id := "7", p1 := ⟨[0], [], 2^63, 2⟩, p2 := some ⟨[1], [], 0, 1⟩,
          p1_payout := 2^63, p2_payout := 0, pot_payout := 0 } := by
    rw [show c9state.contract.waiting.getD 0 default
        = Match.new "7" ⟨[0], [], 2^63, 2⟩ from rfl]
    rw [Match_play_dc _ _ _ rfl rfl]
    rw [show c9state.contract.pot = 0 from rfl, potDividend015_zero]
    simp [Match.new, wrap64, negI64, toI64, i64wrap]
  have hbal : (PrisonerDilemma.play c9state ⟨[1], [], [], 0, 1⟩).2.contract.balances [0]
      = 0 := by
    rw [play_pass _ _ (by decide) (by decide)]
    have hidx : firstIdxWith
        (fun m => decide (m.p1.sender ≠ (⟨[1], [], [], 0, 1⟩ : Params).sender))
        c9state.contract.waiting = some 0 := by decide
    rw [hidx]
    show (pairWith c9state ⟨[1], [], 0, 1⟩
        (if c9state.contract.threshold > 0 then c9state.contract.threshold - 1
         else c9state.contract.threshold) 0).2.contract.balances [0] = 0
    rw [pairWith_balances, hm]
    simp only [Option.getD_some]
    decide
  exact ⟨rfl, hbal, by rw [hbal]; decide⟩

/-- Witness for `c9_balance_amended`: the initial state has an empty waiting
pool, so the payout-bound hypothesis holds vacuously and no balance
decreases. -/
theorem c9_balance_amended_witness :
    (∀ mm ∈ (⟨PrisonerDilemma.init ⟨[], [], [], 0, 0⟩, 0⟩ : SysState).contract.waiting,
      (mm.p1.vote = 1 ∨ mm.p1.vote = 2)
      ∧ (⟨PrisonerDilemma.init ⟨[], [], [], 0, 0⟩, 0⟩ : SysState).contract.balances
            mm.p1.sender + mm.p1.stake + (⟨[1], [], [], 0, 1⟩ : Params).amount
          + potDividend015 (⟨PrisonerDilemma.init ⟨[], [], [], 0, 0⟩, 0⟩
              : SysState).contract.pot < 2^63
      ∧ (⟨PrisonerDilemma.init ⟨[], [], [], 0, 0⟩, 0⟩ : SysState).contract.balances
            (⟨[1], [], [], 0, 1⟩ : Params).sender + mm.p1.stake
          + (⟨[1], [], [], 0, 1⟩ : Params).amount
          + potDividend015 (⟨PrisonerDilemma.init ⟨[], [], [], 0, 0⟩, 0⟩
              : SysState).contract.pot < 2^63
      ∧ (⟨PrisonerDilemma.init ⟨[], [], [], 0, 0⟩, 0⟩ : SysState).contract.balances
            mm.p1.sender + mm.p1.stake
          + potDividend01 (⟨PrisonerDilemma.init ⟨[], [], [], 0, 0⟩, 0⟩
              : SysState).contract.pot < 2^63
      ∧ (⟨PrisonerDilemma.init ⟨[], [], [], 0, 0⟩, 0⟩ : SysState).contract.balances
            (⟨[1], [], [], 0, 1⟩ : Params).sender
          + (⟨[1], [], [], 0, 1⟩ : Params).amount
          + potDividend01 (⟨PrisonerDilemma.init ⟨[], [], [], 0, 0⟩, 0⟩
              : SysState).contract.pot < 2^63)
    ∧ ((∀ k, (⟨PrisonerDilemma.init ⟨[], [], [], 0, 0⟩, 0⟩
          : SysState).contract.balances k
        ≤ (PrisonerDilemma.play ⟨PrisonerDilemma.init ⟨[], [], [], 0, 0⟩, 0⟩
            ⟨[1], [], [], 0, 1⟩).2.contract.balances k)
      ∧ (∀ (c : PrisonerDilemma) (who : List ℕ), c.balances who ≠ 0 →
          (PrisonerDilemma.cash_out c who).2.2.balances who = 0)) :=
  ⟨fun mm hmm => absurd hmm (List.not_mem_nil mm),
   c9_balance_amended ⟨PrisonerDilemma.init ⟨[], [], [], 0, 0⟩, 0⟩ ⟨[1], [], [], 0, 1⟩
     (fun mm hmm => absurd hmm (List.not_mem_nil mm))⟩

/-- Witness for `c1_conservation_amended`: two cooperating players with
stake 1 each and pot 0 satisfy the vote hypotheses, and conservation
holds for them. -/
theorem c1_conservation_amended_witness :
    ((Match.new "1" ⟨[0], [], 1, 1⟩).p1.vote = 1
      ∨ (Match.new "1" ⟨[0], [], 1, 1⟩).p1.vote = 2)
    ∧ ((⟨[1], [], 1, 1⟩ : Player).vote = 1 ∨ (⟨[1], [], 1, 1⟩ : Player).vote = 2)
    ∧ (((((Match.play (Match.new "1" ⟨[0], [], 1, 1⟩) ⟨[1], [], 1, 1⟩ 0).p1_payout : ℤ)
          - (Match.new "1" ⟨[0], [], 1, 1⟩).p1.stake)
        + (((Match.play (Match.new "1" ⟨[0], [], 1, 1⟩) ⟨[1], [], 1, 1⟩ 0).p2_payout : ℤ)
          - (⟨[1], [], 1, 1⟩ : Player).stake)
        + (Match.play (Match.new "1" ⟨[0], [], 1, 1⟩) ⟨[1], [], 1, 1⟩ 0).pot_payout) % 2^64 = 0
      ∧ ((Match.new "1" ⟨[0], [], 1, 1⟩).p1.stake + (⟨[1], [], 1, 1⟩ : Player).stake
            + potDividend015 0 < 2^63 →
         (Match.new "1" ⟨[0], [], 1, 1⟩).p1.stake + potDividend01 0 < 2^64 →
         (⟨[1], [], 1, 1⟩ : Player).stake + potDividend01 0 < 2^64 →
         2 * potDividend01 0 < 2^63 →
         ((((Match.play (Match.new "1" ⟨[0], [], 1, 1⟩) ⟨[1], [], 1, 1⟩ 0).p1_payout : ℤ)
            - (Match.new "1" ⟨[0], [], 1, 1⟩).p1.stake)
          + (((Match.play (Match.new "1" ⟨[0], [], 1, 1⟩) ⟨[1], [], 1, 1⟩ 0).p2_payout : ℤ)
            - (⟨[1], [], 1, 1⟩ : Player).stake)
          + (Match.play (Match.new "1" ⟨[0], [], 1, 1⟩) ⟨[1], [], 1, 1⟩ 0).pot_payout) = 0)) :=
  ⟨Or.inl rfl, Or.inl rfl,
   c1_conservation_amended (Match.new "1" ⟨[0], [], 1, 1⟩) ⟨[1], [], 1, 1⟩ 0
     (Or.inl rfl) (Or.inl rfl)⟩
